import Mathlib

/-!
# Verification of the flatcc JSON printer runtime (`src/runtime/json_printer.c`)

This file gives a shallow embedding of the traversal-and-emission core of the
flatcc JSON printer and proves the frozen claims about it.

Modelling conventions:
* A FlatBuffer is a `List Nat` of bytes addressed by position; reads are
  little-endian and unaligned, exactly as `__flatbuffers_*_read_from_pe`.
* The printer context `Ctx` mirrors `flatcc_json_printer_t`: the output buffer
  is `buf` (the write cursor `p` is `buf.length`, the flush threshold `pflush`
  sits at `flushSize`), `out` holds the bytes already delivered to a file sink,
  and the sink kind replaces the `flush` function pointer (the three flushers
  in the source are dispatched from `Ctx.flush`).
* Machine integers are `Nat`/`Int` (voffsets are 16-bit unsigned reads, soffsets
  are signed 32-bit reads, the recursion budget `ttl` is a C `int`).
* Schema-generated callbacks are function arguments, matching
  `flatcc_json_printer_table_f` / `flatcc_json_printer_union_type_f`.
-/

namespace Flatcc

/-! ## Little-endian byte reads (`flatcc_flatbuffers.h` accessors used by src) -/

/-- One byte of the input buffer; out-of-range reads give 0 (the source would
read whatever memory is there; all theorems evaluate in range). -/
def readU8 (b : List Nat) (i : Nat) : Nat := b.getD i 0 % 256

/-- `__flatbuffers_voffset_read_from_pe`: unaligned little-endian u16. -/
def readU16 (b : List Nat) (i : Nat) : Nat := readU8 b i + 256 * readU8 b (i+1)

/-- `__flatbuffers_uoffset_read_from_pe`: unaligned little-endian u32. -/
def readU32 (b : List Nat) (i : Nat) : Nat :=
  readU8 b i + 256 * readU8 b (i+1) + 65536 * readU8 b (i+2) + 16777216 * readU8 b (i+3)

/-- `__flatbuffers_soffset_read_from_pe`: signed little-endian i32. -/
def readS32 (b : List Nat) (i : Nat) : Int :=
  let u := readU32 b i
  if u < 2^31 then (u : Int) else (u : Int) - 2^32

/-- `read_uoffset_ptr` (json_printer.c:69): follow a u32 offset from `i`. -/
def read_uoffset_ptr (b : List Nat) (i : Nat) : Nat := i + readU32 b i

/-! ## Table descriptor and vtable resolver -/

/-- `flatcc_json_printer_table_descriptor_t`. -/
structure TableDescriptor where
  type : Nat
  count : Nat
  ttl : Int
  table : Nat
  vtable : Nat
  vsize : Nat
  deriving Repr, DecidableEq

/-- `get_field_ptr` (json_printer.c:79): vtable lookup for field `id`. -/
def get_field_ptr (b : List Nat) (td : TableDescriptor) (id : Nat) : Option Nat :=
  let vo := (id + 2) * 2
  if vo ≥ td.vsize then none
  else
    let v := readU16 b (td.vtable + vo)
    if v = 0 then none else some (td.table + v)

/-! ## Printer context, error latch and flushing -/

/-- Error codes. Modelled from the spec: the error enum lives in
`flatcc_json_printer.h` (not under src); the spec lists `bad_input`,
`deep_recursion`, `overflow`, `unknown`, with 0 meaning no error. -/
def errOk : Nat := 0

/-- `flatcc_json_printer_error_bad_input`. -/
def errBadInput : Nat := 1

/-- `flatcc_json_printer_error_deep_recursion`. -/
def errDeepRecursion : Nat := 2

/-- `flatcc_json_printer_error_overflow`. -/
def errOverflow : Nat := 3

/-- The three sinks of §4.1: a file-like handle, a fixed external buffer, and
an owned growable buffer.  They replace the `flush` function pointer stored in
the context. -/
inductive Sink where
  | file
  | fixed
  | dyn
  deriving Repr, DecidableEq

/-- `flatcc_json_printer_t`.  `buf` holds the bytes written and not yet
flushed, so the cursor `p` is at `buf.length` and `pflush` at `flushSize`;
`out` holds bytes already written to the file sink. -/
structure Ctx where
  sink : Sink
  buf : List Nat
  out : List Nat
  total : Nat
  size : Nat
  flushSize : Nat
  reserve : Nat
  err : Nat
  level : Nat
  indent : Nat
  unquote : Bool
  noenum : Bool
  skip_default : Bool
  force_default : Bool
  deriving Repr, DecidableEq

/-- All bytes the printer has produced, in order: flushed bytes followed by
the bytes still in the buffer. -/
def Ctx.emitted (ctx : Ctx) : List Nat := ctx.out ++ ctx.buf

/-- Modelled from the spec: `flatcc_json_printer_set_error` is a header inline
(not under src); the spec says setting is sticky — once non-zero it is never
cleared by the core. -/
def set_error (ctx : Ctx) (e : Nat) : Ctx :=
  if ctx.err = 0 then { ctx with err := e } else ctx

/-- The sink flushers: `__flatcc_json_printer_flush` (json_printer.c:1071),
`__flatcc_json_printer_flush_buffer` (json_printer.c:1110) and
`__flatcc_json_printer_flush_dynamic_buffer` (json_printer.c:1135; the
realloc is modelled as succeeding — on failure the source latches overflow). -/
def Ctx.flush (ctx : Ctx) (all : Bool) : Ctx :=
  match ctx.sink with
  | .file =>
      if !all ∧ ctx.buf.length ≥ ctx.flushSize then
        { ctx with out := ctx.out ++ ctx.buf.take ctx.flushSize,
                   buf := ctx.buf.drop ctx.flushSize,
                   total := ctx.total + ctx.flushSize }
      else
        { ctx with out := ctx.out ++ ctx.buf,
                   buf := [],
                   total := ctx.total + ctx.buf.length }
  | .fixed =>
      set_error { ctx with total := ctx.total + ctx.buf.length, buf := [] } errOverflow
  | .dyn =>
      { ctx with total := ctx.total + ctx.buf.length,
                 size := ctx.size * 2,
                 flushSize := ctx.size * 2 - ctx.reserve }

/-- Modelled from the spec: `flatcc_json_printer_flush_partial` is a header
inline — flush only when the cursor has reached the flush threshold. -/
def flush_partial (ctx : Ctx) : Ctx :=
  if ctx.buf.length ≥ ctx.flushSize then ctx.flush false else ctx

/-- Modelled from the spec: `flatcc_json_printer_flush` (header inline) —
a full flush of the buffer. -/
def flush_all (ctx : Ctx) : Ctx := ctx.flush true

/-! ## Unchecked emission primitives (the `print_*` macros) -/

/-- A run of `print_char` statements: unchecked append within the reserve. -/
def emit (ctx : Ctx) (s : List Nat) : Ctx := { ctx with buf := ctx.buf ++ s }

/-- `print_char` (json_printer.c:93). -/
def print_char (ctx : Ctx) (c : Nat) : Ctx := emit ctx [c]

/-- `print_null` (json_printer.c:95): the four bytes of `null`. -/
def print_null (ctx : Ctx) : Ctx := emit ctx [0x6e, 0x75, 0x6c, 0x6c]

/-- `print_start` (json_printer.c:102). -/
def print_start (ctx : Ctx) (c : Nat) : Ctx :=
  emit { ctx with level := ctx.level + 1 } [c]

/-- `print_space` (json_printer.c:116): the space is materialised only in
pretty mode (`ctx->p += !!ctx->indent`). -/
def print_space (ctx : Ctx) : Ctx :=
  if ctx.indent ≠ 0 then emit ctx [0x20] else ctx

/-- `List.replicate` of ASCII spaces, for the `memset` calls. -/
def spaces (k : Nat) : List Nat := List.replicate k 0x20

/-- Loop body of `print_indent_ex` (json_printer.c:290-296): emit `m` spaces,
flush, and refill `m` from the (possibly updated) flush size.  The `m = 0`
branch guards the non-terminating degenerate configuration the source would
loop on; it is unreachable when `flushSize > 0`. -/
def print_indent_go (ctx : Ctx) (k m : Nat) : Ctx :=
  if k > m then
    if m = 0 then emit ctx (spaces k)
    else
      let ctx2 := (emit ctx (spaces m)).flush false
      print_indent_go ctx2 (k - m) ctx2.flushSize
  else emit ctx (spaces k)
termination_by k
decreasing_by omega

/-- `print_indent_ex` (json_printer.c:282). -/
def print_indent_ex (ctx : Ctx) (k : Nat) : Ctx :=
  let ctx := if ctx.buf.length ≥ ctx.flushSize then ctx.flush false else ctx
  print_indent_go ctx k (ctx.flushSize - ctx.buf.length)

/-- `print_indent` (json_printer.c:301). -/
def print_indent (ctx : Ctx) : Ctx :=
  let k := ctx.level * ctx.indent
  if ctx.buf.length + k > ctx.flushSize then print_indent_ex ctx k
  else emit ctx (spaces k)

/-- `print_end` (json_printer.c:107).  Note the level is only decremented in
pretty mode, exactly as in the source. -/
def print_end (ctx : Ctx) (c : Nat) : Ctx :=
  let ctx :=
    if ctx.indent ≠ 0 then
      print_indent { (emit ctx [0x0a]) with level := ctx.level - 1 }
    else ctx
  emit ctx [c]

/-- `print_nl` (json_printer.c:121). -/
def print_nl (ctx : Ctx) : Ctx :=
  if ctx.indent ≠ 0 then print_indent (emit ctx [0x0a])
  else flush_partial ctx

/-- `print_last_nl` (json_printer.c:131). -/
def print_last_nl (ctx : Ctx) : Ctx :=
  let ctx := if ctx.indent ≠ 0 ∧ ctx.level = 0 then emit ctx [0x0a] else ctx
  flush_partial ctx

/-- Loop of `print_string_part` (json_printer.c:174-181): fill to the
threshold, flush, repeat; the final `memcpy` lands in the `else` branches.
The guards (`k = 0`, empty remainder) stop configurations on which the
source's do/while would not progress; they are unreachable under the
buffer's reserve contract. -/
def print_string_part_go (ctx : Ctx) (s : List Nat) : Ctx :=
  let k := ctx.flushSize - ctx.buf.length
  let c2 := (emit ctx (s.take k)).flush false
  if k = 0 then emit c2 (s.drop k)
  else if h : (s.drop k).length ≠ 0 ∧ c2.buf.length + (s.drop k).length ≥ c2.flushSize then
    print_string_part_go c2 (s.drop k)
  else emit c2 (s.drop k)
termination_by s.length
decreasing_by
  simp only [List.length_drop] at h ⊢
  omega

/-- `print_string_part` (json_printer.c:166): append a known-length byte run,
flushing as needed. -/
def print_string_part (ctx : Ctx) (s : List Nat) : Ctx :=
  if ctx.buf.length + s.length ≥ ctx.flushSize then
    let ctx := if ctx.buf.length ≥ ctx.flushSize then ctx.flush false else ctx
    print_string_part_go ctx s
  else emit ctx s

/-- `print_symbol` (json_printer.c:357): quotes are elided when `unquote`
is set (`ctx->p += !ctx->unquote`). -/
def print_symbol (ctx : Ctx) (name : List Nat) : Ctx :=
  let ctx := emit ctx (if ctx.unquote then [] else [0x22])
  let ctx :=
    if ctx.buf.length + name.length < ctx.flushSize then emit ctx name
    else print_string_part ctx name
  emit ctx (if ctx.unquote then [] else [0x22])

/-- `print_name` (json_printer.c:371): newline-and-indent, quoted symbol,
colon, one space iff pretty. -/
def print_name (ctx : Ctx) (name : List Nat) : Ctx :=
  print_space (print_char (print_symbol (print_nl ctx) name) 0x3a)

/-! ## Invariants of the emission primitives

The configuration of a context — sink kind, indent width and the four policy
flags — is never touched by the emitters; the error code is only ever set (and
only by `set_error` and the fixed-buffer flush), and flushing through the file
sink neither loses nor reorders bytes. -/

@[simp] theorem set_error_fields (ctx : Ctx) (e : Nat) :
    (set_error ctx e).sink = ctx.sink ∧ (set_error ctx e).indent = ctx.indent ∧
    (set_error ctx e).unquote = ctx.unquote ∧ (set_error ctx e).noenum = ctx.noenum ∧
    (set_error ctx e).skip_default = ctx.skip_default ∧
    (set_error ctx e).force_default = ctx.force_default ∧
    (set_error ctx e).level = ctx.level ∧ (set_error ctx e).flushSize = ctx.flushSize ∧
    (set_error ctx e).buf = ctx.buf ∧ (set_error ctx e).out = ctx.out ∧
    (set_error ctx e).total = ctx.total ∧ (set_error ctx e).emitted = ctx.emitted := by
  unfold set_error Ctx.emitted; split <;> exact ⟨rfl, rfl, rfl, rfl, rfl, rfl, rfl, rfl, rfl, rfl, rfl, rfl⟩

@[simp] theorem emit_fields (ctx : Ctx) (s : List Nat) :
    (emit ctx s).sink = ctx.sink ∧ (emit ctx s).indent = ctx.indent ∧
    (emit ctx s).unquote = ctx.unquote ∧ (emit ctx s).noenum = ctx.noenum ∧
    (emit ctx s).skip_default = ctx.skip_default ∧
    (emit ctx s).force_default = ctx.force_default ∧
    (emit ctx s).level = ctx.level ∧ (emit ctx s).flushSize = ctx.flushSize ∧
    (emit ctx s).err = ctx.err ∧ (emit ctx s).out = ctx.out ∧ (emit ctx s).total = ctx.total :=
  ⟨rfl, rfl, rfl, rfl, rfl, rfl, rfl, rfl, rfl, rfl, rfl⟩

@[simp] theorem emitted_emit (ctx : Ctx) (s : List Nat) :
    (emit ctx s).emitted = ctx.emitted ++ s := by
  simp [emit, Ctx.emitted]

@[simp] theorem flush_fields (ctx : Ctx) (b : Bool) :
    (ctx.flush b).sink = ctx.sink ∧ (ctx.flush b).indent = ctx.indent ∧
    (ctx.flush b).unquote = ctx.unquote ∧ (ctx.flush b).noenum = ctx.noenum ∧
    (ctx.flush b).skip_default = ctx.skip_default ∧
    (ctx.flush b).force_default = ctx.force_default ∧
    (ctx.flush b).level = ctx.level := by
  unfold Ctx.flush set_error
  split
  · split <;> exact ⟨rfl, rfl, rfl, rfl, rfl, rfl, rfl⟩
  · split <;> exact ⟨rfl, rfl, rfl, rfl, rfl, rfl, rfl⟩
  · exact ⟨rfl, rfl, rfl, rfl, rfl, rfl, rfl⟩

theorem err_flush (ctx : Ctx) (b : Bool) (h : ctx.sink = .file) :
    (ctx.flush b).err = ctx.err := by
  unfold Ctx.flush
  split
  · split <;> rfl
  · rename_i hs; rw [h] at hs; cases hs
  · rfl

theorem flushSize_flush (ctx : Ctx) (b : Bool) (h : ctx.sink = .file) :
    (ctx.flush b).flushSize = ctx.flushSize := by
  unfold Ctx.flush
  split
  · split <;> rfl
  · rename_i hs; rw [h] at hs; cases hs
  · rename_i hs; rw [h] at hs; cases hs

theorem emitted_flush (ctx : Ctx) (b : Bool) (h : ctx.sink = .file) :
    (ctx.flush b).emitted = ctx.emitted := by
  unfold Ctx.flush
  split
  · split <;> simp [Ctx.emitted]
  · rename_i hs; rw [h] at hs; cases hs
  · rfl

@[simp] theorem flush_partial_fields (ctx : Ctx) :
    ( flush_partial ctx).sink = ctx.sink ∧ ( flush_partial ctx).indent = ctx.indent ∧
    ( flush_partial ctx).unquote = ctx.unquote ∧ ( flush_partial ctx).noenum = ctx.noenum ∧
    ( flush_partial ctx).skip_default = ctx.skip_default ∧
    ( flush_partial ctx).force_default = ctx.force_default ∧
    ( flush_partial ctx).level = ctx.level := by
  unfold flush_partial; split
  · exact flush_fields ctx false
  · exact ⟨rfl, rfl, rfl, rfl, rfl, rfl, rfl⟩

theorem err_flush_partial (ctx : Ctx) (h : ctx.sink = .file) :
    ( flush_partial ctx).err = ctx.err := by
  unfold flush_partial; split
  · exact err_flush ctx false h
  · rfl

theorem emitted_flush_partial (ctx : Ctx) (h : ctx.sink = .file) :
    ( flush_partial ctx).emitted = ctx.emitted := by
  unfold flush_partial; split
  · exact emitted_flush ctx false h
  · rfl

theorem flushSize_flush_partial (ctx : Ctx) (h : ctx.sink = .file) :
    ( flush_partial ctx).flushSize = ctx.flushSize := by
  unfold flush_partial; split
  · exact flushSize_flush ctx false h
  · rfl

/-- What every byte-emitting primitive guarantees on a file-sink context:
the sink, error code, level, policy flags and flush threshold are unchanged
and the emitted bytes are extended by exactly `d`. -/
def EmitsOn (ctx res : Ctx) (d : List Nat) : Prop :=
  res.sink = Sink.file ∧ res.err = ctx.err ∧
  res.indent = ctx.indent ∧ res.unquote = ctx.unquote ∧ res.noenum = ctx.noenum ∧
  res.skip_default = ctx.skip_default ∧ res.force_default = ctx.force_default ∧
  res.flushSize = ctx.flushSize ∧ res.emitted = ctx.emitted ++ d

theorem emitsOn_emit (ctx : Ctx) (s : List Nat) (h : ctx.sink = .file) :
    EmitsOn ctx (emit ctx s) s := by
  refine ⟨h, rfl, rfl, rfl, rfl, rfl, rfl, rfl, ?_⟩
  simp

theorem emitsOn_flush (ctx : Ctx) (b : Bool) (h : ctx.sink = .file) :
    EmitsOn ctx (ctx.flush b) [] := by
  obtain ⟨h1, h2, h3, h4, h5, h6, h7⟩ := flush_fields ctx b
  exact ⟨h1.trans h, err_flush ctx b h, h2, h3, h4, h5, h6, flushSize_flush ctx b h,
    by rw [emitted_flush ctx b h, List.append_nil]⟩

theorem emitsOn_flush_partial (ctx : Ctx) (h : ctx.sink = .file) :
    EmitsOn ctx ( flush_partial ctx) [] := by
  unfold flush_partial; split
  · exact emitsOn_flush ctx false h
  · exact ⟨h, rfl, rfl, rfl, rfl, rfl, rfl, rfl, by simp⟩

/-- `EmitsOn` composes: run one primitive after another. -/
theorem emitsOn_trans {ctx mid res : Ctx} {d1 d2 : List Nat}
    (h1 : EmitsOn ctx mid d1) (h2 : EmitsOn mid res d2) :
    EmitsOn ctx res (d1 ++ d2) := by
  obtain ⟨a1, a2, a3, a4, a5, a6, a7, a8, a9⟩ := h1
  obtain ⟨b1, b2, b3, b4, b5, b6, b7, b8, b9⟩ := h2
  refine ⟨b1, b2.trans a2, b3.trans a3, b4.trans a4, b5.trans a5, b6.trans a6,
    b7.trans a7, b8.trans a8, ?_⟩
  rw [b9, a9, List.append_assoc]

theorem emitsOn_sink {ctx res : Ctx} {d : List Nat} (h : EmitsOn ctx res d) :
    res.sink = Sink.file := h.1

theorem print_string_part_go_spec (ctx : Ctx) (s : List Nat) :
    ctx.sink = Sink.file → EmitsOn ctx (print_string_part_go ctx s) s := by
  induction ctx, s using print_string_part_go.induct with
  | case1 ctx s k hk =>
      intro h
      have hk2 : ctx.flushSize - ctx.buf.length = 0 := hk
      rw [print_string_part_go, if_pos hk2]
      have e1 := emitsOn_emit ctx (s.take (ctx.flushSize - ctx.buf.length)) h
      have e2 := emitsOn_flush _ false (emitsOn_sink e1)
      have e12 := emitsOn_trans e1 e2
      have e3 := emitsOn_emit _ (s.drop (ctx.flushSize - ctx.buf.length)) (emitsOn_sink e12)
      have e := emitsOn_trans e12 e3
      simpa [List.take_append_drop] using e
  | case2 ctx s k c2 hk hcond ih =>
      intro h
      have hk2 : ¬ ctx.flushSize - ctx.buf.length = 0 := hk
      rw [print_string_part_go, if_neg hk2, dif_pos hcond]
      have e1 := emitsOn_emit ctx (s.take (ctx.flushSize - ctx.buf.length)) h
      have e2 := emitsOn_flush _ false (emitsOn_sink e1)
      have e12 := emitsOn_trans e1 e2
      have e3 := ih (emitsOn_sink e12)
      have e := emitsOn_trans e12 e3
      simpa [List.take_append_drop] using e
  | case3 ctx s k c2 hk hcond =>
      intro h
      have hk2 : ¬ ctx.flushSize - ctx.buf.length = 0 := hk
      rw [print_string_part_go, if_neg hk2, dif_neg hcond]
      have e1 := emitsOn_emit ctx (s.take (ctx.flushSize - ctx.buf.length)) h
      have e2 := emitsOn_flush _ false (emitsOn_sink e1)
      have e12 := emitsOn_trans e1 e2
      have e3 := emitsOn_emit _ (s.drop (ctx.flushSize - ctx.buf.length)) (emitsOn_sink e12)
      have e := emitsOn_trans e12 e3
      simpa [List.take_append_drop] using e

theorem print_string_part_spec (ctx : Ctx) (s : List Nat) (h : ctx.sink = Sink.file) :
    EmitsOn ctx (print_string_part ctx s) s := by
  unfold print_string_part
  split
  · split
    · have e1 := emitsOn_flush ctx false h
      have e2 := print_string_part_go_spec _ s (emitsOn_sink e1)
      simpa using emitsOn_trans e1 e2
    · exact print_string_part_go_spec ctx s h
  · exact emitsOn_emit ctx s h

theorem print_indent_go_spec (ctx : Ctx) (k m : Nat) :
    ctx.sink = Sink.file → EmitsOn ctx (print_indent_go ctx k m) (spaces k) := by
  induction ctx, k, m using print_indent_go.induct with
  | case1 ctx k hk =>
      intro h
      rw [print_indent_go, if_pos hk, if_pos rfl]
      exact emitsOn_emit ctx (spaces k) h
  | case2 ctx k m hkm hm ctx2 ih =>
      intro h
      rw [print_indent_go, if_pos hkm, if_neg hm]
      have e1 := emitsOn_emit ctx (spaces m) h
      have e2 := emitsOn_flush _ false (emitsOn_sink e1)
      have e12 := emitsOn_trans e1 e2
      have e3 := ih (emitsOn_sink e12)
      have e := emitsOn_trans e12 e3
      have hs : spaces m ++ [] ++ spaces (k - m) = spaces k := by
        simp only [List.append_nil, spaces]
        rw [← List.replicate_add]
        congr 1
        omega
      rwa [hs] at e
  | case3 ctx k m hkm =>
      intro h
      rw [print_indent_go, if_neg hkm]
      exact emitsOn_emit ctx (spaces k) h

theorem print_indent_ex_spec (ctx : Ctx) (k : Nat) (h : ctx.sink = Sink.file) :
    EmitsOn ctx (print_indent_ex ctx k) (spaces k) := by
  unfold print_indent_ex
  by_cases hb : ctx.buf.length ≥ ctx.flushSize
  · rw [if_pos hb]
    have e1 := emitsOn_flush ctx false h
    have e2 := print_indent_go_spec (ctx.flush false) k
      ((ctx.flush false).flushSize - (ctx.flush false).buf.length) (emitsOn_sink e1)
    simpa using emitsOn_trans e1 e2
  · rw [if_neg hb]
    exact print_indent_go_spec ctx k (ctx.flushSize - ctx.buf.length) h

theorem print_indent_spec (ctx : Ctx) (h : ctx.sink = Sink.file) :
    EmitsOn ctx (print_indent ctx) (spaces (ctx.level * ctx.indent)) := by
  unfold print_indent
  by_cases hb : ctx.buf.length + ctx.level * ctx.indent > ctx.flushSize
  · rw [if_pos hb]
    exact print_indent_ex_spec ctx _ h
  · rw [if_neg hb]
    exact emitsOn_emit ctx _ h

theorem print_nl_spec (ctx : Ctx) (h : ctx.sink = Sink.file) :
    EmitsOn ctx (print_nl ctx)
      (if ctx.indent ≠ 0 then 0x0a :: spaces (ctx.level * ctx.indent) else []) := by
  unfold print_nl
  by_cases hi : ctx.indent ≠ 0
  · rw [if_pos hi, if_pos hi]
    have e1 := emitsOn_emit ctx [0x0a] h
    have e2 := print_indent_spec _ (emitsOn_sink e1)
    simpa using emitsOn_trans e1 e2
  · rw [if_neg hi, if_neg hi]
    exact emitsOn_flush_partial ctx h

theorem print_last_nl_spec (ctx : Ctx) (h : ctx.sink = Sink.file) :
    EmitsOn ctx (print_last_nl ctx)
      (if ctx.indent ≠ 0 ∧ ctx.level = 0 then [0x0a] else []) := by
  unfold print_last_nl
  by_cases hc : ctx.indent ≠ 0 ∧ ctx.level = 0
  · rw [if_pos hc, if_pos hc]
    have e1 := emitsOn_emit ctx [0x0a] h
    have e2 := emitsOn_flush_partial _ (emitsOn_sink e1)
    simpa using emitsOn_trans e1 e2
  · rw [if_neg hc, if_neg hc]
    exact emitsOn_flush_partial ctx h

theorem print_symbol_spec (ctx : Ctx) (name : List Nat) (h : ctx.sink = Sink.file) :
    EmitsOn ctx (print_symbol ctx name)
      ((if ctx.unquote then [] else [0x22]) ++ name ++
        (if ctx.unquote then [] else [0x22])) := by
  unfold print_symbol
  dsimp only
  have e1 := emitsOn_emit ctx (if ctx.unquote then [] else [0x22]) h
  by_cases hb : (emit ctx (if ctx.unquote then [] else [0x22])).buf.length + name.length <
      (emit ctx (if ctx.unquote then [] else [0x22])).flushSize
  · rw [if_pos hb]
    have e2 := emitsOn_emit _ name (emitsOn_sink e1)
    have e12 := emitsOn_trans e1 e2
    have hu : (emit (emit ctx (if ctx.unquote then [] else [0x22])) name).unquote
        = ctx.unquote := rfl
    rw [hu]
    have e3 := emitsOn_emit _ (if ctx.unquote then [] else [0x22]) (emitsOn_sink e12)
    have e := emitsOn_trans e12 e3
    simpa [List.append_assoc] using e
  · rw [if_neg hb]
    have e2 := print_string_part_spec _ name (emitsOn_sink e1)
    have e12 := emitsOn_trans e1 e2
    have hu : (print_string_part (emit ctx (if ctx.unquote then [] else [0x22])) name).unquote
        = ctx.unquote := by
      obtain ⟨-, -, -, h4, -⟩ := e12
      exact h4
    rw [hu]
    have e3 := emitsOn_emit _ (if ctx.unquote then [] else [0x22]) (emitsOn_sink e12)
    have e := emitsOn_trans e12 e3
    simpa [List.append_assoc] using e

theorem print_name_spec (ctx : Ctx) (name : List Nat) (h : ctx.sink = Sink.file) :
    EmitsOn ctx (print_name ctx name)
      ((if ctx.indent ≠ 0 then 0x0a :: spaces (ctx.level * ctx.indent) else []) ++
        (if ctx.unquote then [] else [0x22]) ++ name ++
        (if ctx.unquote then [] else [0x22]) ++ [0x3a] ++
        (if ctx.indent ≠ 0 then [0x20] else [])) := by
  unfold print_name print_space print_char
  have e1 := print_nl_spec ctx h
  have h1u : (print_nl ctx).unquote = ctx.unquote := by
    obtain ⟨-, -, -, h4, -⟩ := e1
    exact h4
  have e2 := print_symbol_spec _ name (emitsOn_sink e1)
  rw [h1u] at e2
  have e12 := emitsOn_trans e1 e2
  have e3 := emitsOn_emit _ [0x3a] (emitsOn_sink e12)
  have e123 := emitsOn_trans e12 e3
  have h3i : (emit (print_symbol (print_nl ctx) name) [0x3a]).indent = ctx.indent := by
    obtain ⟨-, -, h3, -⟩ := e123
    exact h3
  rw [h3i]
  by_cases hi : ctx.indent ≠ 0
  · rw [if_pos hi]
    have e4 := emitsOn_emit _ [0x20] (emitsOn_sink e123)
    have e := emitsOn_trans e123 e4
    simp only [if_pos hi] at e ⊢
    simpa [List.append_assoc] using e
  · rw [if_neg hi]
    simp only [if_neg hi] at e123 ⊢
    simpa [List.append_assoc] using e123

/-! ## Numbers and byte slices -/

/-- Modelled from the spec: the integer-to-text formatter (`print_uint8` /
`print_utype` from `pprintint.h`, not under src) — ASCII decimal digits.
The `fuel` argument only bounds the recursion so the kernel can evaluate it
(the initial fuel `n` always suffices, since `n / 10` shrinks faster). -/
def decDigitsGo : Nat → Nat → List Nat
  | 0, n => [0x30 + n % 10]
  | fuel + 1, n => if n < 10 then [0x30 + n] else decDigitsGo fuel (n / 10) ++ [0x30 + n % 10]

/-- ASCII decimal digits of `n`. -/
def decDigits (n : Nat) : List Nat := decDigitsGo n n

/-- The `len` bytes starting at address `i`. -/
def readBytes (b : List Nat) (i len : Nat) : List Nat :=
  (List.range len).map (fun j => readU8 b (i + j))

theorem readBytes_lt (b : List Nat) (i len : Nat) : ∀ x ∈ readBytes b i len, x < 256 := by
  intro x hx
  unfold readBytes at hx
  obtain ⟨j, -, rfl⟩ := List.mem_map.mp hx
  exact Nat.mod_lt _ (by omega)

/-! ## String escaping (`print_string`, json_printer.c:198) -/

/-- The scan condition of the inner `while`: bytes that are copied through
unescaped (`c >= 0x20 && c != '"' && c != '\\'`, on an unsigned char). -/
def is_plain (c : Nat) : Bool := decide (0x20 ≤ c) && decide (c ≠ 0x22) && decide (c ≠ 0x5c)

/-- ASCII hex digit with lowercase letters (`x += x < 10 ? '0' : 'a' - 10`). -/
def hexDigit (x : Nat) : Nat := if x < 10 then 0x30 + x else 87 + x

/-- The escape-selection `switch` (json_printer.c:221-240): the bytes printed
after the leading backslash. -/
def esc (c : Nat) : List Nat :=
  if c = 0x22 then [0x22]
  else if c = 0x5c then [0x5c]
  else if c = 0x09 then [0x74]
  else if c = 0x0c then [0x66]
  else if c = 0x0d then [0x72]
  else if c = 0x0a then [0x6e]
  else if c = 0x08 then [0x62]
  else [0x75, 0x30, 0x30, hexDigit (c / 16), hexDigit (c % 16)]

/-- The outer loop of `print_string`: copy the maximal plain run, then escape
one byte, repeat until the `len` bytes are consumed.  The source's scan stops
on the string's trailing NUL (a non-plain byte just past the `len` content
bytes), so the run never overshoots the remaining length. -/
def print_string_go (ctx : Ctx) (s : List Nat) : Ctx :=
  let ctx2 := print_string_part ctx (s.takeWhile is_plain)
  match h : s.dropWhile is_plain with
  | [] => ctx2
  | c :: rest => print_string_go (emit (print_char ctx2 0x5c) (esc c)) rest
termination_by s.length
decreasing_by
  have hle : (s.dropWhile is_plain).length ≤ s.length :=
    (List.dropWhile_suffix is_plain).sublist.length_le
  rw [h] at hle
  simp only [List.length_cons] at hle
  omega

/-- `print_string` (json_printer.c:198): quote, escaped content, quote. -/
def print_string (ctx : Ctx) (s : List Nat) : Ctx :=
  print_char (print_string_go (print_char ctx 0x22) s) 0x22

/-- The pure escape transform computed by `print_string_go`. -/
def string_escape (s : List Nat) : List Nat :=
  s.takeWhile is_plain ++
    (match h : s.dropWhile is_plain with
     | [] => []
     | c :: rest => 0x5c :: (esc c ++ string_escape rest))
termination_by s.length
decreasing_by
  have hle : (s.dropWhile is_plain).length ≤ s.length :=
    (List.dropWhile_suffix is_plain).sublist.length_le
  rw [h] at hle
  simp only [List.length_cons] at hle
  omega

theorem print_string_go_eq_nil (ctx : Ctx) (s : List Nat)
    (hdrop : s.dropWhile is_plain = []) :
    print_string_go ctx s = print_string_part ctx (s.takeWhile is_plain) := by
  rw [print_string_go]
  split
  · rfl
  · rename_i c rest heq
    rw [hdrop] at heq
    cases heq

theorem print_string_go_eq_cons (ctx : Ctx) (s : List Nat) (c : Nat) (rest : List Nat)
    (hdrop : s.dropWhile is_plain = c :: rest) :
    print_string_go ctx s =
      print_string_go
        (emit (print_char (print_string_part ctx (s.takeWhile is_plain)) 0x5c) (esc c))
        rest := by
  rw [print_string_go]
  split
  · rename_i heq
    rw [hdrop] at heq
    cases heq
  · rename_i c2 rest2 heq
    rw [hdrop] at heq
    cases heq
    rfl

theorem string_escape_eq_nil (s : List Nat) (hdrop : s.dropWhile is_plain = []) :
    string_escape s = s.takeWhile is_plain := by
  rw [string_escape]
  split
  · simp
  · rename_i c rest heq
    rw [hdrop] at heq
    cases heq

theorem string_escape_eq_cons (s : List Nat) (c : Nat) (rest : List Nat)
    (hdrop : s.dropWhile is_plain = c :: rest) :
    string_escape s = s.takeWhile is_plain ++ (0x5c :: (esc c ++ string_escape rest)) := by
  rw [string_escape]
  split
  · rename_i heq
    rw [hdrop] at heq
    cases heq
  · rename_i c2 rest2 heq
    rw [hdrop] at heq
    cases heq
    rfl

theorem print_string_go_spec (ctx : Ctx) (s : List Nat) :
    ctx.sink = Sink.file → EmitsOn ctx (print_string_go ctx s) (string_escape s) := by
  induction ctx, s using print_string_go.induct with
  | case1 ctx s hdrop =>
      intro h
      rw [print_string_go_eq_nil ctx s hdrop, string_escape_eq_nil s hdrop]
      exact print_string_part_spec ctx (s.takeWhile is_plain) h
  | case2 ctx s ctx2 c rest hdrop ih =>
      intro h
      rw [print_string_go_eq_cons ctx s c rest hdrop, string_escape_eq_cons s c rest hdrop]
      have e1 := print_string_part_spec ctx (s.takeWhile is_plain) h
      have e2 := emitsOn_emit _ [0x5c] (emitsOn_sink e1)
      have e12 := emitsOn_trans e1 e2
      have e3 := emitsOn_emit _ (esc c) (emitsOn_sink e12)
      have e123 := emitsOn_trans e12 e3
      have e4 := ih (emitsOn_sink e123)
      have e := emitsOn_trans e123 e4
      simpa [List.append_assoc, print_char] using e

theorem print_string_spec (ctx : Ctx) (s : List Nat) (h : ctx.sink = Sink.file) :
    EmitsOn ctx (print_string ctx s) (0x22 :: (string_escape s ++ [0x22])) := by
  unfold print_string
  have e1 := emitsOn_emit ctx [0x22] h
  have e2 := print_string_go_spec _ s (emitsOn_sink e1)
  have e12 := emitsOn_trans e1 e2
  have e3 := emitsOn_emit _ [0x22] (emitsOn_sink e12)
  have e := emitsOn_trans e12 e3
  simpa [print_char, List.append_assoc] using e

/-- `print_string_object` (json_printer.c:420): length-prefixed string; the
`len` content bytes start right after the u32 length. -/
def print_string_object (b : List Nat) (ctx : Ctx) (p : Nat) : Ctx :=
  print_string ctx (readBytes b (p + 4) (readU32 b p))

/-! ## More primitive specs -/

theorem print_char_spec (ctx : Ctx) (c : Nat) (h : ctx.sink = Sink.file) :
    EmitsOn ctx (print_char ctx c) [c] := emitsOn_emit ctx [c] h

theorem print_null_spec (ctx : Ctx) (h : ctx.sink = Sink.file) :
    EmitsOn ctx (print_null ctx) [0x6e, 0x75, 0x6c, 0x6c] := emitsOn_emit ctx _ h

theorem print_space_spec (ctx : Ctx) (h : ctx.sink = Sink.file) :
    EmitsOn ctx (print_space ctx) (if ctx.indent ≠ 0 then [0x20] else []) := by
  unfold print_space
  by_cases hi : ctx.indent ≠ 0
  · rw [if_pos hi, if_pos hi]
    exact emitsOn_emit ctx [0x20] h
  · rw [if_neg hi, if_neg hi]
    exact ⟨h, rfl, rfl, rfl, rfl, rfl, rfl, rfl, by simp⟩

theorem print_start_spec (ctx : Ctx) (c : Nat) (h : ctx.sink = Sink.file) :
    EmitsOn ctx (print_start ctx c) [c] := by
  unfold print_start
  exact ⟨h, rfl, rfl, rfl, rfl, rfl, rfl, rfl, by simp [Ctx.emitted, emit]⟩

@[simp] theorem level_print_start (ctx : Ctx) (c : Nat) :
    (print_start ctx c).level = ctx.level + 1 := rfl

theorem print_end_spec (ctx : Ctx) (c : Nat) (h : ctx.sink = Sink.file) :
    EmitsOn ctx (print_end ctx c)
      ((if ctx.indent ≠ 0 then 0x0a :: spaces ((ctx.level - 1) * ctx.indent) else []) ++ [c]) := by
  unfold print_end
  by_cases hi : ctx.indent ≠ 0
  · rw [if_pos hi, if_pos hi]
    have e1 : EmitsOn ctx { (emit ctx [0x0a]) with level := ctx.level - 1 } [0x0a] :=
      ⟨h, rfl, rfl, rfl, rfl, rfl, rfl, rfl, by simp [Ctx.emitted, emit]⟩
    have e2 := print_indent_spec _ (emitsOn_sink e1)
    have e12 := emitsOn_trans e1 e2
    have e3 := emitsOn_emit _ [c] (emitsOn_sink e12)
    have e := emitsOn_trans e12 e3
    simpa [List.append_assoc] using e
  · rw [if_neg hi, if_neg hi]
    simpa using emitsOn_emit ctx [c] h

theorem err_set_error_eq_zero (ctx : Ctx) (e : Nat) :
    (set_error ctx e).err = 0 ↔ (ctx.err = 0 ∧ e = 0) := by
  unfold set_error
  split
  · rename_i h0
    simp [h0]
  · rename_i h0
    simp [h0]

/-! ## Traversal driver and field emitters (byte level)

The schema-generated callbacks are function parameters: `pf` plays
`flatcc_json_printer_table_f` (it receives the context and the freshly built
descriptor) and `ptf` plays `flatcc_json_printer_union_type_f`. -/

/-- `print_table_object` (json_printer.c:521).  The vtable sits at
`table − soffset(table)`; addresses are `Nat`, and a negative vtable address
(impossible in a well-formed buffer) is clamped by `Int.toNat`. -/
def print_table_object (b : List Nat) (ctx : Ctx) (p : Nat) (ttl : Int) (type : Nat)
    (pf : Ctx → TableDescriptor → Ctx) : Ctx :=
  if ttl - 1 = 0 then set_error ctx errDeepRecursion
  else
    let vt : Nat := ((p : Int) - readS32 b p).toNat
    let td : TableDescriptor :=
      { type := type, count := 0, ttl := ttl - 1, table := p, vtable := vt,
        vsize := readU16 b vt }
    print_end (pf (print_start ctx 0x7b) td) 0x7d

/-- `flatcc_json_printer_uint8_field` (json_printer.c:464, the
`__define_print_scalar_field` macro instantiated at `uint8`); `go` is the
shared emission tail the two `if` arms of the C code fall through to. -/
def flatcc_json_printer_uint8_field (b : List Nat) (ctx : Ctx) (td : TableDescriptor)
    (id : Nat) (name : List Nat) (v : Nat) : Ctx × TableDescriptor :=
  let go : Nat → Ctx × TableDescriptor := fun x =>
    (emit (print_name (if td.count ≠ 0 then print_char ctx 0x2c else ctx) name) (decDigits x),
     { td with count := td.count + 1 })
  match get_field_ptr b td id with
  | some p =>
      if readU8 b p = v ∧ ctx.skip_default then (ctx, td) else go (readU8 b p)
  | none =>
      if ctx.force_default then go v else (ctx, td)

/-- `flatcc_json_printer_uint8_enum_field` (json_printer.c:490, the
`__define_print_enum_field` macro instantiated at `uint8`). -/
def flatcc_json_printer_uint8_enum_field (b : List Nat) (ctx : Ctx) (td : TableDescriptor)
    (id : Nat) (name : List Nat) (v : Nat) (pf : Ctx → Nat → Ctx) : Ctx × TableDescriptor :=
  let go : Nat → Ctx × TableDescriptor := fun x =>
    (let c := print_name (if td.count ≠ 0 then print_char ctx 0x2c else ctx) name
     if ctx.noenum then emit c (decDigits x) else pf c x,
     { td with count := td.count + 1 })
  match get_field_ptr b td id with
  | some p =>
      if readU8 b p = v ∧ ctx.skip_default then (ctx, td) else go (readU8 b p)
  | none =>
      if ctx.force_default then go v else (ctx, td)

/-- `flatcc_json_printer_string_field` (json_printer.c:541). -/
def flatcc_json_printer_string_field (b : List Nat) (ctx : Ctx) (td : TableDescriptor)
    (id : Nat) (name : List Nat) : Ctx × TableDescriptor :=
  match get_field_ptr b td id with
  | some p =>
      (print_string_object b
        (print_name (if td.count ≠ 0 then print_char ctx 0x2c else ctx) name)
        (read_uoffset_ptr b p),
       { td with count := td.count + 1 })
  | none => (ctx, td)

/-- `flatcc_json_printer_table_field` (json_printer.c:877). -/
def flatcc_json_printer_table_field (b : List Nat) (ctx : Ctx) (td : TableDescriptor)
    (id : Nat) (name : List Nat) (pf : Ctx → TableDescriptor → Ctx) :
    Ctx × TableDescriptor :=
  match get_field_ptr b td id with
  | some p =>
      (print_table_object b
        (print_name (if td.count ≠ 0 then print_char ctx 0x2c else ctx) name)
        (read_uoffset_ptr b p) td.ttl 0 pf,
       { td with count := td.count + 1 })
  | none => (ctx, td)

/-- `flatcc_json_printer_struct_field` (json_printer.c:950); the struct
callback receives the field address. -/
def flatcc_json_printer_struct_field (b : List Nat) (ctx : Ctx) (td : TableDescriptor)
    (id : Nat) (name : List Nat) (pf : Ctx → Nat → Ctx) : Ctx × TableDescriptor :=
  match get_field_ptr b td id with
  | some p =>
      (print_end
        (pf (print_start
          (print_name (if td.count ≠ 0 then print_char ctx 0x2c else ctx) name) 0x7b) p)
        0x7d,
       { td with count := td.count + 1 })
  | none => (ctx, td)

/-- The bytes of `"_type"`. -/
def str_type : List Nat := [0x5f, 0x74, 0x79, 0x70, 0x65]

/-- `flatcc_json_printer_union_field` (json_printer.c:893): the two-slot
union protocol.  The discriminant is a 1-byte `utype` read from slot `id−1`
(`print_utype` is `print_uint8`, json_printer.c:59). -/
def flatcc_json_printer_union_field (b : List Nat) (ctx : Ctx) (td : TableDescriptor)
    (id : Nat) (name : List Nat) (ptf : Ctx → Nat → Ctx)
    (pf : Ctx → TableDescriptor → Ctx) : Ctx × TableDescriptor :=
  match get_field_ptr b td (id - 1), get_field_ptr b td id with
  | some pt, some p =>
      let type := readU8 b pt
      let ctx := if td.count ≠ 0 then print_char ctx 0x2c else ctx
      let td := { td with count := td.count + 1 }
      let ctx := print_nl ctx
      let ctx := emit ctx (if ctx.unquote then [] else [0x22])
      let ctx := if ctx.buf.length + name.length < ctx.flushSize then emit ctx name
                 else print_string_part ctx name
      let ctx := print_string_part ctx str_type
      let ctx := emit ctx (if ctx.unquote then [] else [0x22])
      let ctx := print_char ctx 0x3a
      let ctx := print_space ctx
      let ctx := if ctx.noenum then emit ctx (decDigits type) else ptf ctx type
      if type ≠ 0 then
        (print_table_object b (print_name (print_char ctx 0x2c) name)
          (read_uoffset_ptr b p) td.ttl type pf, td)
      else (ctx, td)
  | _, _ => (ctx, td)

/-- The `while (count--)` loop of `__define_print_scalar_vector_field`
instantiated at `utype` (json_printer.c:601-608): `p` points at the element
just printed and is advanced before the read, as in the source. -/
def utype_vector_go (b : List Nat) (ctx : Ctx) (p : Nat) : Nat → Ctx
  | 0 => ctx
  | n + 1 =>
      utype_vector_go b
        (emit (print_nl (print_char ctx 0x2c)) (decDigits (readU8 b (p + 1)))) (p + 1) n

/-- `flatcc_json_printer_utype_vector_field` (json_printer.c:575, the scalar
vector macro at `utype`, element size 1). -/
def flatcc_json_printer_utype_vector_field (b : List Nat) (ctx : Ctx)
    (td : TableDescriptor) (id : Nat) (name : List Nat) : Ctx × TableDescriptor :=
  match get_field_ptr b td id with
  | some p0 =>
      let ctx := if td.count ≠ 0 then print_char ctx 0x2c else ctx
      let v := read_uoffset_ptr b p0
      let count := readU32 b v
      let ctx := print_start (print_name ctx name) 0x5b
      let ctx :=
        if count ≠ 0 then
          utype_vector_go b (emit (print_nl ctx) (decDigits (readU8 b (v + 4))))
            (v + 4) (count - 1)
        else ctx
      (print_end ctx 0x5d, { td with count := td.count + 1 })
  | none => (ctx, td)

/-- The `while (count--)` loop of `__define_print_enum_vector_field` at
`utype` (json_printer.c:643-648). -/
def utype_enum_vector_go (b : List Nat) (ptf : Ctx → Nat → Ctx) (ctx : Ctx) (p : Nat) :
    Nat → Ctx
  | 0 => ctx
  | n + 1 =>
      utype_enum_vector_go b ptf
        (ptf (print_nl (print_char ctx 0x2c)) (readU8 b (p + 1))) (p + 1) n

/-- `flatcc_json_printer_utype_enum_vector_field` (json_printer.c:613, the
enum vector macro at `utype`): with `noenum` set it degrades to the plain
scalar vector field. -/
def flatcc_json_printer_utype_enum_vector_field (b : List Nat) (ctx : Ctx)
    (td : TableDescriptor) (id : Nat) (name : List Nat) (ptf : Ctx → Nat → Ctx) :
    Ctx × TableDescriptor :=
  if ctx.noenum then flatcc_json_printer_utype_vector_field b ctx td id name
  else
    match get_field_ptr b td id with
    | some p0 =>
        let ctx := if td.count ≠ 0 then print_char ctx 0x2c else ctx
        let v := read_uoffset_ptr b p0
        let count := readU32 b v
        let ctx := print_start (print_name ctx name) 0x5b
        let ctx :=
          if count ≠ 0 then
            utype_enum_vector_go b ptf (ptf (print_nl ctx) (readU8 b (v + 4)))
              (v + 4) (count - 1)
          else ctx
        (print_end ctx 0x5d, { td with count := td.count + 1 })
    | none => (ctx, td)

/-- Modelled from the spec: `FLATCC_JSON_PRINT_NAME_LEN_MAX`, the configured
identifier length cap from `flatcc_rtconfig.h` (not under src; default 64). -/
def FLATCC_JSON_PRINT_NAME_LEN_MAX : Nat := 64

/-- The `while (count--)` loop of `flatcc_json_printer_union_vector_field`
(json_printer.c:861-871): offsets at `p` (4 bytes each), discriminants at
`pt` (1 byte each); both point at the element just handled and are advanced
before the reads, as in the source. -/
def union_vector_go (b : List Nat) (pf : Ctx → TableDescriptor → Ctx) (ttl : Int)
    (ctx : Ctx) (p pt : Nat) : Nat → Ctx
  | 0 => ctx
  | n + 1 =>
      let type := readU8 b (pt + 1)
      let ctx := print_char ctx 0x2c
      let ctx :=
        if type ≠ 0 then print_table_object b ctx (read_uoffset_ptr b (p + 4)) ttl type pf
        else print_null ctx
      union_vector_go b pf ttl ctx (p + 4) (pt + 1) n

/-- `flatcc_json_printer_union_vector_field` (json_printer.c:819). -/
def flatcc_json_printer_union_vector_field (b : List Nat) (ctx : Ctx)
    (td : TableDescriptor) (id : Nat) (name : List Nat) (ptf : Ctx → Nat → Ctx)
    (pf : Ctx → TableDescriptor → Ctx) : Ctx × TableDescriptor :=
  if name.length > FLATCC_JSON_PRINT_NAME_LEN_MAX then
    (set_error ctx errBadInput, td)
  else
    match get_field_ptr b td id, get_field_ptr b td (id - 1) with
    | some p, some pt =>
        let r := flatcc_json_printer_utype_enum_vector_field b ctx td (id - 1)
                   (name ++ str_type) ptf
        let ctx := r.1
        let td := r.2
        let ctx := if td.count ≠ 0 then print_char ctx 0x2c else ctx
        let v := read_uoffset_ptr b p
        let t := read_uoffset_ptr b pt
        let count := readU32 b v
        let ctx := print_start (print_name ctx name) 0x5b
        let ctx :=
          if count ≠ 0 then
            let type := readU8 b (t + 4)
            let ctx :=
              if type ≠ 0 then
                print_table_object b ctx (read_uoffset_ptr b (v + 4)) td.ttl type pf
              else print_null ctx
            union_vector_go b pf td.ttl ctx (v + 4) (t + 4) (count - 1)
          else ctx
        (print_end ctx 0x5d, { td with count := td.count + 1 })
    | _, _ => (ctx, td)

/-! ## The nesting structure of a buffer, for the depth-budget claim

`TTree` is the logical table-nesting structure of a FlatBuffer whose fields
are all present table fields; `print_table_tree` is `print_table_object`
(json_printer.c:521) specialised to the schema-generated callback of such a
buffer: the callback emits each child through
`flatcc_json_printer_table_field` (json_printer.c:877, with the field always
present and a one-byte field name `f`), which recurses with the descriptor's
`ttl`. -/

inductive TTree where
  | node : List TTree → TTree

mutual

def print_table_tree (ctx : Ctx) (t : TTree) (ttl : Int) : Ctx :=
  match t with
  | .node cs =>
      if ttl - 1 = 0 then set_error ctx errDeepRecursion
      else print_end (print_tree_fields (print_start ctx 0x7b) cs (ttl - 1) 0) 0x7d

def print_tree_fields (ctx : Ctx) (cs : List TTree) (ttl : Int) (count : Nat) : Ctx :=
  match cs with
  | [] => ctx
  | c :: rest =>
      print_tree_fields
        (print_table_tree
          (print_name (if count ≠ 0 then print_char ctx 0x2c else ctx) [0x66]) c ttl)
        rest ttl (count + 1)

end

mutual

/-- Table-nesting depth: a lone root table has depth 1. -/
def TTree.depth : TTree → Nat
  | .node cs => 1 + depthList cs

def depthList : List TTree → Nat
  | [] => 0
  | c :: rest => max c.depth (depthList rest)

end

/-- `flatcc_json_printer_table_as_root` (json_printer.c:1009) over the tree
model.  `hdrOk` abstracts `accept_header` (json_printer.c:972): a false value
stands for a too-small buffer or an identifier mismatch, both of which raise
`bad_input`; `maxLevels` is the configured `FLATCC_JSON_PRINT_MAX_LEVELS`.
On success the source returns `(int)ctx->total`. -/
def table_as_root_tree (ctx : Ctx) (hdrOk : Bool) (maxLevels : Int) (t : TTree) :
    Int × Ctx :=
  if !hdrOk then (-1, set_error ctx errBadInput)
  else
    let ctx := print_last_nl (print_table_tree ctx t maxLevels)
    (if ctx.err ≠ 0 then -1 else (ctx.total : Int), ctx)

@[simp] theorem depth_node (cs : List TTree) :
    TTree.depth (.node cs) = 1 + depthList cs := by
  rw [TTree.depth]

@[simp] theorem depthList_nil : depthList [] = 0 := by
  rw [depthList]

@[simp] theorem depthList_cons (c : TTree) (rest : List TTree) :
    depthList (c :: rest) = max c.depth (depthList rest) := by
  rw [depthList]

theorem depth_pos (t : TTree) : 1 ≤ t.depth := by
  cases t with
  | node cs => rw [depth_node]; omega

mutual

theorem print_table_tree_err (t : TTree) (ttl : Int) (ctx : Ctx) :
    ctx.sink = Sink.file → 1 ≤ ttl →
    (((print_table_tree ctx t ttl).err = 0 ↔
        (ctx.err = 0 ∧ (t.depth : Int) < ttl)) ∧
      (print_table_tree ctx t ttl).sink = Sink.file) := by
  cases t with
  | node cs =>
      intro hs hp
      rw [print_table_tree]
      by_cases h1 : ttl - 1 = 0
      · rw [if_pos h1]
        constructor
        · rw [err_set_error_eq_zero]
          have hdep : ¬ ((TTree.depth (.node cs) : Int) < ttl) := by
            have := depth_pos (TTree.node cs)
            have hcast : (1 : Int) ≤ (TTree.depth (.node cs) : Int) := by exact_mod_cast this
            omega
          unfold errDeepRecursion
          constructor
          · rintro ⟨-, habs⟩; omega
          · rintro ⟨-, habs⟩; exact absurd habs hdep
        · have := (set_error_fields ctx errDeepRecursion).1
          rw [this, hs]
      · rw [if_neg h1]
        have hp2 : (1 : Int) ≤ ttl - 1 := by omega
        have s1 := print_start_spec ctx 0x7b hs
        have f := print_tree_fields_err cs (ttl - 1) (print_start ctx 0x7b) 0
          (emitsOn_sink s1) hp2
        have e := print_end_spec (print_tree_fields (print_start ctx 0x7b) cs (ttl - 1) 0)
          0x7d f.2
        constructor
        · rw [e.2.1, f.1, s1.2.1]
          have harith : ((depthList cs : Int) < ttl - 1) ↔
              ((TTree.depth (.node cs) : Int) < ttl) := by
            rw [depth_node]
            push_cast
            omega
          rw [harith]
        · exact e.1
  termination_by sizeOf t

theorem print_tree_fields_err (cs : List TTree) (ttl : Int) (ctx : Ctx) (count : Nat) :
    ctx.sink = Sink.file → 1 ≤ ttl →
    (((print_tree_fields ctx cs ttl count).err = 0 ↔
        (ctx.err = 0 ∧ (depthList cs : Int) < ttl)) ∧
      (print_tree_fields ctx cs ttl count).sink = Sink.file) := by
  cases cs with
  | nil =>
      intro hs hp
      rw [print_tree_fields]
      constructor
      · simp only [depthList_nil, Nat.cast_zero]
        constructor
        · intro he; exact ⟨he, by omega⟩
        · rintro ⟨he, -⟩; exact he
      · exact hs
  | cons c rest =>
      intro hs hp
      rw [print_tree_fields]
      have hcomma : ((if count ≠ 0 then print_char ctx 0x2c else ctx).err = ctx.err) ∧
          ((if count ≠ 0 then print_char ctx 0x2c else ctx).sink = Sink.file) := by
        split
        · exact ⟨rfl, hs⟩
        · exact ⟨rfl, hs⟩
      have pn := print_name_spec (if count ≠ 0 then print_char ctx 0x2c else ctx) [0x66]
        hcomma.2
      have t1 := print_table_tree_err c ttl _ (emitsOn_sink pn) hp
      have f1 := print_tree_fields_err rest ttl _ (count + 1) t1.2 hp
      constructor
      · rw [f1.1, t1.1, pn.2.1, hcomma.1]
        have harith : ((TTree.depth c : Int) < ttl ∧ (depthList rest : Int) < ttl) ↔
            ((depthList (c :: rest) : Int) < ttl) := by
          rw [depthList_cons]
          push_cast
          rw [max_lt_iff]
        constructor
        · rintro ⟨⟨he, hd1⟩, hd2⟩; exact ⟨he, harith.1 ⟨hd1, hd2⟩⟩
        · rintro ⟨he, hd⟩
          obtain ⟨hd1, hd2⟩ := harith.2 hd
          exact ⟨⟨he, hd1⟩, hd2⟩
      · exact f1.2
  termination_by sizeOf cs

end

/-! ## Initialised contexts (`flatcc_json_printer_init`, json_printer.c:1089)

The size constants are modelled from the spec/configuration
(`FLATCC_JSON_PRINT_BUFFER_SIZE`, `FLATCC_JSON_PRINT_FLUSH_SIZE`,
`FLATCC_JSON_PRINT_RESERVE` live in `flatcc_rtconfig.h`, not under src); the
source asserts `flush_size + RESERVE <= size`.  `memset(ctx, 0, ...)` zeroes
the level, indent and all policy flags. -/
def flatcc_json_printer_init : Ctx :=
  { sink := .file, buf := [], out := [], total := 0, size := 4096, flushSize := 4032,
    reserve := 64, err := 0, level := 0, indent := 0, unquote := false, noenum := false,
    skip_default := false, force_default := false }

/-- `flatcc_json_printer_init_dynamic_buffer` (json_printer.c:1154) with the
default size. -/
def flatcc_json_printer_init_dynamic_buffer : Ctx :=
  { flatcc_json_printer_init with sink := .dyn }

/-- Returning `(int)ctx->total` after `print_last_nl`, as
`flatcc_json_printer_table_as_root` does, under-reports the bytes produced:
on an error-free print whose output is still sitting in the buffer the entry
point returns `0` even though two bytes (`{}`) were emitted.  (The upstream
project returns `total + (p − buf)`.) -/
theorem claim_C2_return_total_only :
    (table_as_root_tree flatcc_json_printer_init true 100 (TTree.node [])).2.err = 0 ∧
    (table_as_root_tree flatcc_json_printer_init true 100 (TTree.node [])).2.emitted
      = [0x7b, 0x7d] ∧
    (table_as_root_tree flatcc_json_printer_init true 100 (TTree.node [])).2.emitted.length
      = 2 ∧
    (table_as_root_tree flatcc_json_printer_init true 100 (TTree.node [])).1 = 0 := by
  decide

/-- C1 (amended): entering the traversal with the configured max-levels
budget, a buffer of table-nesting depth N prints without error iff
max-levels > N (strictly; the claim's `max-levels ≥ N` is off by one), and
every entry into `print_table_object` that decrements the ttl to zero latches
`deep_recursion` and emits no body (the context is returned unchanged but for
the latched error). -/
theorem claim_C1 (ctx : Ctx) (t : TTree) (maxLevels : Int)
    (hs : ctx.sink = Sink.file) (he : ctx.err = 0) (hp : 1 ≤ maxLevels) :
    (((table_as_root_tree ctx true maxLevels t).2.err = 0 ↔
        (t.depth : Int) < maxLevels) ∧
     ((table_as_root_tree ctx true maxLevels t).1 ≠ -1 ↔
        (t.depth : Int) < maxLevels)) ∧
    (∀ (b : List Nat) (c : Ctx) (p : Nat) (type : Nat)
        (pf : Ctx → TableDescriptor → Ctx) (ttl : Int), ttl - 1 = 0 →
      print_table_object b c p ttl type pf = set_error c errDeepRecursion) := by
  constructor
  · have tt := print_table_tree_err t maxLevels ctx hs hp
    have nl := print_last_nl_spec (print_table_tree ctx t maxLevels) tt.2
    have herr : (table_as_root_tree ctx true maxLevels t).2.err
        = (print_table_tree ctx t maxLevels).err := by
      unfold table_as_root_tree
      simp only [Bool.not_true, Bool.false_eq_true, if_false]
      exact nl.2.1
    have hiff : (table_as_root_tree ctx true maxLevels t).2.err = 0 ↔
        (t.depth : Int) < maxLevels := by
      rw [herr, tt.1]
      simp [he]
    refine ⟨hiff, ?_⟩
    have hret : (table_as_root_tree ctx true maxLevels t).1 =
        (if (table_as_root_tree ctx true maxLevels t).2.err ≠ 0 then (-1 : Int)
         else ((print_last_nl (print_table_tree ctx t maxLevels)).total : Int)) := by
      unfold table_as_root_tree
      simp only [Bool.not_true, Bool.false_eq_true, if_false]
    rw [hret, ← hiff]
    by_cases hz : (table_as_root_tree ctx true maxLevels t).2.err = 0
    · rw [if_neg (fun hcon => hcon hz)]
      have hnn : (0 : Int) ≤
          ((print_last_nl (print_table_tree ctx t maxLevels)).total : Int) :=
        Int.natCast_nonneg _
      constructor
      · intro _; exact hz
      · intro _; omega
    · rw [if_pos hz]
      constructor
      · intro hne; exact absurd rfl hne
      · intro h0; exact absurd h0 hz
  · intro b c p type pf ttl h1
    rw [print_table_object, if_pos h1]

/-- Counterexample to C1 as stated: with max-levels 2 and a buffer whose
root table contains one nested table the budget is ≥ the nesting depth under
either depth convention (depth 2 counting the root, 1 counting below it), yet
the print fails with `deep_recursion` and returns −1. -/
theorem claim_C1_counterexample :
    (TTree.depth (TTree.node [TTree.node []]) : Int) ≤ 2 ∧
    (table_as_root_tree flatcc_json_printer_init true 2
      (TTree.node [TTree.node []])).1 = -1 ∧
    (table_as_root_tree flatcc_json_printer_init true 2
      (TTree.node [TTree.node []])).2.err = errDeepRecursion := by
  refine ⟨by decide, ?_, ?_⟩ <;> decide

theorem claim_C1_witness :
    flatcc_json_printer_init.sink = Sink.file ∧ flatcc_json_printer_init.err = 0 ∧
    (1 : Int) ≤ 2 ∧
    (((table_as_root_tree flatcc_json_printer_init true 2 (TTree.node [])).2.err = 0 ↔
        (TTree.depth (TTree.node []) : Int) < 2)) :=
  ⟨rfl, rfl, by decide,
    (claim_C1 flatcc_json_printer_init (TTree.node []) 2 rfl rfl (by decide)).1.1⟩

/-- C5: `get_field_ptr` yields `table + voffset` exactly when
`(id+2)·voffset_size` is inside the vtable and the voffset there is non-zero,
and this lookup is the presence gate of the field emitters: when it returns
absent (and force-default is off for scalars) the emitters return the context
and descriptor untouched. -/
theorem claim_C5 (b : List Nat) (td : TableDescriptor) (id : Nat) :
    (get_field_ptr b td id =
      if (id + 2) * 2 < td.vsize ∧ readU16 b (td.vtable + (id + 2) * 2) ≠ 0 then
        some (td.table + readU16 b (td.vtable + (id + 2) * 2))
      else none) ∧
    (∀ a, get_field_ptr b td id = some a ↔
      ((id + 2) * 2 < td.vsize ∧ readU16 b (td.vtable + (id + 2) * 2) ≠ 0 ∧
        a = td.table + readU16 b (td.vtable + (id + 2) * 2))) ∧
    (get_field_ptr b td id = none →
      ∀ (ctx : Ctx) (name : List Nat) (v : Nat) (pf : Ctx → TableDescriptor → Ctx)
        (sf : Ctx → Nat → Ctx),
        (ctx.force_default = false →
          flatcc_json_printer_uint8_field b ctx td id name v = (ctx, td)) ∧
        flatcc_json_printer_string_field b ctx td id name = (ctx, td) ∧
        flatcc_json_printer_table_field b ctx td id name pf = (ctx, td) ∧
        flatcc_json_printer_struct_field b ctx td id name sf = (ctx, td) ∧
        flatcc_json_printer_utype_vector_field b ctx td id name = (ctx, td)) := by
  have hmain : get_field_ptr b td id =
      if (id + 2) * 2 < td.vsize ∧ readU16 b (td.vtable + (id + 2) * 2) ≠ 0 then
        some (td.table + readU16 b (td.vtable + (id + 2) * 2))
      else none := by
    unfold get_field_ptr
    by_cases h1 : (id + 2) * 2 ≥ td.vsize
    · rw [if_pos h1, if_neg]
      rintro ⟨h2, -⟩
      omega
    · rw [if_neg h1]
      by_cases h2 : readU16 b (td.vtable + (id + 2) * 2) = 0
      · rw [if_pos h2, if_neg]
        rintro ⟨-, h3⟩
        exact h3 h2
      · rw [if_neg h2, if_pos ⟨by omega, h2⟩]
  refine ⟨hmain, ?_, ?_⟩
  · intro a
    rw [hmain]
    split
    · rename_i hc
      constructor
      · intro hsome
        exact ⟨hc.1, hc.2, (Option.some_inj.mp hsome).symm⟩
      · rintro ⟨-, -, rfl⟩
        rfl
    · rename_i hc
      constructor
      · intro habs; cases habs
      · rintro ⟨h1, h2, -⟩
        exact absurd ⟨h1, h2⟩ hc
  · intro hnone ctx name v pf sf
    refine ⟨?_, ?_, ?_, ?_, ?_⟩
    · intro hforce
      unfold flatcc_json_printer_uint8_field
      rw [hnone]
      simp [hforce]
    · unfold flatcc_json_printer_string_field
      rw [hnone]
    · unfold flatcc_json_printer_table_field
      rw [hnone]
    · unfold flatcc_json_printer_struct_field
      rw [hnone]
    · unfold flatcc_json_printer_utype_vector_field
      rw [hnone]

/-- A concrete buffer for the C5 witness: the vtable at address 0 has
`vsize = 8` (slots for field ids 0 and 1), field 0 present at table offset 4,
field 1 absent; the table body at address 8 points back at the vtable. -/
def exampleBuf : List Nat :=
  [8, 0, 12, 0, 4, 0, 0, 0,
   8, 0, 0, 0, 42, 0, 0, 0, 0, 0, 0, 0]

/-- The descriptor `print_table_object` would build for `exampleBuf`. -/
def exampleTd : TableDescriptor :=
  { type := 0, count := 0, ttl := 99, table := 8, vtable := 0, vsize := 8 }

theorem claim_C5_witness :
    get_field_ptr exampleBuf exampleTd 0 = some 12 ∧
    get_field_ptr exampleBuf exampleTd 1 = none ∧
    (flatcc_json_printer_init.force_default = false →
      flatcc_json_printer_uint8_field exampleBuf flatcc_json_printer_init exampleTd 1
        [0x66] 0 = (flatcc_json_printer_init, exampleTd)) ∧
    flatcc_json_printer_string_field exampleBuf flatcc_json_printer_init exampleTd 1
      [0x66] = (flatcc_json_printer_init, exampleTd) :=
  ⟨by decide, by decide,
    ((claim_C5 exampleBuf exampleTd 1).2.2 (by decide) flatcc_json_printer_init
      [0x66] 0 (fun c _ => c) (fun c _ => c)).1,
    ((claim_C5 exampleBuf exampleTd 1).2.2 (by decide) flatcc_json_printer_init
      [0x66] 0 (fun c _ => c) (fun c _ => c)).2.1⟩

/-! ## The scalar field gate (claim C6) -/

theorem emitsOn_refl (ctx : Ctx) (h : ctx.sink = Sink.file) : EmitsOn ctx ctx [] :=
  ⟨h, rfl, rfl, rfl, rfl, rfl, rfl, rfl, by simp⟩

theorem emitsOn_comma_if (ctx : Ctx) (c : Nat) (cond : Prop) [Decidable cond]
    (h : ctx.sink = Sink.file) :
    EmitsOn ctx (if cond then print_char ctx c else ctx)
      (if cond then [c] else []) := by
  split
  · exact print_char_spec ctx c h
  · exact emitsOn_refl ctx h

/-- The shared emission tail of the scalar field emitters, in compact quoted
mode: optional comma, the quoted key, a colon, and the decimal value. -/
theorem scalar_tail_spec (ctx : Ctx) (count : Nat) (name : List Nat) (x : Nat)
    (hs : ctx.sink = Sink.file) (hi : ctx.indent = 0) (hu : ctx.unquote = false) :
    EmitsOn ctx
      (emit (print_name (if count ≠ 0 then print_char ctx 0x2c else ctx) name)
        (decDigits x))
      ((if count ≠ 0 then [0x2c] else []) ++
        [0x22] ++ name ++ [0x22, 0x3a] ++ decDigits x) := by
  have e1 := emitsOn_comma_if ctx 0x2c (count ≠ 0) hs
  have e2 := print_name_spec _ name (emitsOn_sink e1)
  have hfi : (if count ≠ 0 then print_char ctx 0x2c else ctx).indent = 0 := by
    split <;> simpa [print_char]
  have hfu : (if count ≠ 0 then print_char ctx 0x2c else ctx).unquote = false := by
    split <;> simpa [print_char]
  rw [hfi, hfu] at e2
  have e12 := emitsOn_trans e1 e2
  have e3 := emitsOn_emit _ (decDigits x) (emitsOn_sink e12)
  have e := emitsOn_trans e12 e3
  obtain ⟨a1, a2, a3, a4, a5, a6, a7, a8, a9⟩ := e
  refine ⟨a1, a2, a3, a4, a5, a6, a7, a8, ?_⟩
  rw [a9]
  simp [List.append_assoc]

/-- C6: the scalar / enum-scalar field gate.  With schema default `v`:
an absent field with force-default off emits nothing; a present field whose
stored value equals `v` with skip-default on emits nothing; an absent field
with force-default on emits the key with the default; otherwise the key is
emitted with the stored value.  (Emission cases are stated in compact quoted
mode; for the enum emitter the two emission cases are stated under the
enum-as-integer policy, where the value is the discriminant's decimal form.) -/
theorem claim_C6 (b : List Nat) (ctx : Ctx) (td : TableDescriptor) (id : Nat)
    (name : List Nat) (v : Nat) (pf : Ctx → Nat → Ctx)
    (hs : ctx.sink = Sink.file) (hi : ctx.indent = 0) (hu : ctx.unquote = false) :
    ((get_field_ptr b td id = none → ctx.force_default = false →
        flatcc_json_printer_uint8_field b ctx td id name v = (ctx, td)) ∧
     (∀ p, get_field_ptr b td id = some p → readU8 b p = v → ctx.skip_default = true →
        flatcc_json_printer_uint8_field b ctx td id name v = (ctx, td)) ∧
     (get_field_ptr b td id = none → ctx.force_default = true →
        EmitsOn ctx (flatcc_json_printer_uint8_field b ctx td id name v).1
          ((if td.count ≠ 0 then [0x2c] else []) ++
            [0x22] ++ name ++ [0x22, 0x3a] ++ decDigits v) ∧
        (flatcc_json_printer_uint8_field b ctx td id name v).2
          = { td with count := td.count + 1 }) ∧
     (∀ p, get_field_ptr b td id = some p →
        (readU8 b p ≠ v ∨ ctx.skip_default = false) →
        EmitsOn ctx (flatcc_json_printer_uint8_field b ctx td id name v).1
          ((if td.count ≠ 0 then [0x2c] else []) ++
            [0x22] ++ name ++ [0x22, 0x3a] ++ decDigits (readU8 b p)) ∧
        (flatcc_json_printer_uint8_field b ctx td id name v).2
          = { td with count := td.count + 1 })) ∧
    ((get_field_ptr b td id = none → ctx.force_default = false →
        flatcc_json_printer_uint8_enum_field b ctx td id name v pf = (ctx, td)) ∧
     (∀ p, get_field_ptr b td id = some p → readU8 b p = v → ctx.skip_default = true →
        flatcc_json_printer_uint8_enum_field b ctx td id name v pf = (ctx, td)) ∧
     (get_field_ptr b td id = none → ctx.force_default = true → ctx.noenum = true →
        EmitsOn ctx (flatcc_json_printer_uint8_enum_field b ctx td id name v pf).1
          ((if td.count ≠ 0 then [0x2c] else []) ++
            [0x22] ++ name ++ [0x22, 0x3a] ++ decDigits v) ∧
        (flatcc_json_printer_uint8_enum_field b ctx td id name v pf).2
          = { td with count := td.count + 1 }) ∧
     (∀ p, get_field_ptr b td id = some p →
        (readU8 b p ≠ v ∨ ctx.skip_default = false) → ctx.noenum = true →
        EmitsOn ctx (flatcc_json_printer_uint8_enum_field b ctx td id name v pf).1
          ((if td.count ≠ 0 then [0x2c] else []) ++
            [0x22] ++ name ++ [0x22, 0x3a] ++ decDigits (readU8 b p)) ∧
        (flatcc_json_printer_uint8_enum_field b ctx td id name v pf).2
          = { td with count := td.count + 1 })) := by
  constructor
  · refine ⟨?_, ?_, ?_, ?_⟩
    · intro hn hf
      unfold flatcc_json_printer_uint8_field
      rw [hn]
      simp [hf]
    · intro p hp hx hsk
      unfold flatcc_json_printer_uint8_field
      rw [hp]
      simp [hx, hsk]
    · intro hn hf
      unfold flatcc_json_printer_uint8_field
      rw [hn]
      simp only [hf, if_true]
      exact ⟨scalar_tail_spec ctx td.count name v hs hi hu, by trivial⟩
    · intro p hp hcond
      unfold flatcc_json_printer_uint8_field
      rw [hp]
      have hskip : ¬ (readU8 b p = v ∧ ctx.skip_default = true) := by
        rintro ⟨h1, h2⟩
        rcases hcond with h3 | h3
        · exact h3 h1
        · rw [h2] at h3; cases h3
      simp only [if_neg hskip]
      exact ⟨scalar_tail_spec ctx td.count name (readU8 b p) hs hi hu, by trivial⟩
  · refine ⟨?_, ?_, ?_, ?_⟩
    · intro hn hf
      unfold flatcc_json_printer_uint8_enum_field
      rw [hn]
      simp [hf]
    · intro p hp hx hsk
      unfold flatcc_json_printer_uint8_enum_field
      rw [hp]
      simp [hx, hsk]
    · intro hn hf hne
      unfold flatcc_json_printer_uint8_enum_field
      rw [hn]
      simp only [hf, if_true, hne]
      exact ⟨scalar_tail_spec ctx td.count name v hs hi hu, by trivial⟩
    · intro p hp hcond hne
      unfold flatcc_json_printer_uint8_enum_field
      rw [hp]
      have hskip : ¬ (readU8 b p = v ∧ ctx.skip_default = true) := by
        rintro ⟨h1, h2⟩
        rcases hcond with h3 | h3
        · exact h3 h1
        · rw [h2] at h3; cases h3
      simp only [if_neg hskip, hne, if_true]
      exact ⟨scalar_tail_spec ctx td.count name (readU8 b p) hs hi hu, by trivial⟩

theorem claim_C6_witness :
    get_field_ptr exampleBuf exampleTd 0 = some 12 ∧
    readU8 exampleBuf 12 = 42 ∧
    (flatcc_json_printer_uint8_field exampleBuf flatcc_json_printer_init exampleTd 0
        [0x66] 7).1.emitted
      = [0x22, 0x66, 0x22, 0x3a, 0x34, 0x32] ∧
    EmitsOn flatcc_json_printer_init
      (flatcc_json_printer_uint8_field exampleBuf flatcc_json_printer_init exampleTd 0
        [0x66] 7).1
      ((if exampleTd.count ≠ 0 then [0x2c] else []) ++
        [0x22] ++ [0x66] ++ [0x22, 0x3a] ++ decDigits (readU8 exampleBuf 12)) :=
  ⟨by decide, by decide, by decide,
    (((claim_C6 exampleBuf flatcc_json_printer_init exampleTd 0 [0x66] 7
        (fun c _ => c) rfl rfl rfl).1.2.2.2 12 (by decide) (by decide)).1)⟩

/-! ## Claim C7: the escape table of `print_string` -/

theorem is_plain_iff (b : Nat) :
    is_plain b = true ↔ (0x20 ≤ b ∧ b ≠ 0x22 ∧ b ≠ 0x5c) := by
  simp [is_plain]
  tauto

theorem string_escape_nil : string_escape [] = [] := by
  rw [string_escape_eq_nil [] rfl]
  rfl

theorem string_escape_single (b : Nat) :
    string_escape [b] = if is_plain b then [b] else 0x5c :: esc b := by
  by_cases hp : is_plain b
  · rw [if_pos hp]
    have hdrop : List.dropWhile is_plain [b] = [] := by
      simp [List.dropWhile_cons, hp]
    rw [string_escape_eq_nil [b] hdrop]
    simp [List.takeWhile_cons, hp]
  · rw [if_neg hp]
    have hb : is_plain b = false := by
      cases hpb : is_plain b
      · rfl
      · exact absurd hpb hp
    have hdrop : List.dropWhile is_plain [b] = b :: [] := by
      simp [List.dropWhile_cons, hb]
    rw [string_escape_eq_cons [b] b [] hdrop]
    simp [List.takeWhile_cons, hb, string_escape_nil]

/-- C7: for every byte `b` of a printed string, `print_string` wraps the value
in double quotes and emits `\"` for 0x22, `\\` for 0x5c, the two-character
escapes for 0x09/0x0a/0x0d/0x0c/0x08, `\u00XX` with lowercase hex for every
other byte below 0x20, and the byte unchanged otherwise (including all bytes
≥ 0x80). -/
theorem claim_C7 (b : Nat) (ctx : Ctx) (hb : b < 256) (hs : ctx.sink = Sink.file) :
    (print_string ctx [b]).emitted =
      ctx.emitted ++ 0x22 ::
        ((if b = 0x22 then [0x5c, 0x22]
          else if b = 0x5c then [0x5c, 0x5c]
          else if b = 0x09 then [0x5c, 0x74]
          else if b = 0x0a then [0x5c, 0x6e]
          else if b = 0x0d then [0x5c, 0x72]
          else if b = 0x0c then [0x5c, 0x66]
          else if b = 0x08 then [0x5c, 0x62]
          else if b < 0x20 then
            [0x5c, 0x75, 0x30, 0x30, hexDigit (b / 16), hexDigit (b % 16)]
          else [b]) ++ [0x22]) := by
  obtain ⟨-, -, -, -, -, -, -, -, h9⟩ := print_string_spec ctx [b] hs
  rw [h9, string_escape_single b]
  have hXE : (if is_plain b then [b] else 0x5c :: esc b) =
      (if b = 0x22 then [0x5c, 0x22]
       else if b = 0x5c then [0x5c, 0x5c]
       else if b = 0x09 then [0x5c, 0x74]
       else if b = 0x0a then [0x5c, 0x6e]
       else if b = 0x0d then [0x5c, 0x72]
       else if b = 0x0c then [0x5c, 0x66]
       else if b = 0x08 then [0x5c, 0x62]
       else if b < 0x20 then
         [0x5c, 0x75, 0x30, 0x30, hexDigit (b / 16), hexDigit (b % 16)]
       else [b]) := by
    by_cases h1 : b = 0x22
    · subst h1; decide
    by_cases h2 : b = 0x5c
    · subst h2; decide
    by_cases h3 : b = 0x09
    · subst h3; decide
    by_cases h4 : b = 0x0a
    · subst h4; decide
    by_cases h5 : b = 0x0d
    · subst h5; decide
    by_cases h6 : b = 0x0c
    · subst h6; decide
    by_cases h7 : b = 0x08
    · subst h7; decide
    by_cases h8 : b < 0x20
    · have hp : ¬ is_plain b = true := by
        rw [is_plain_iff]
        rintro ⟨hge, -⟩
        omega
      rw [if_neg hp, if_neg h1, if_neg h2, if_neg h3, if_neg h4, if_neg h5, if_neg h6,
        if_neg h7, if_pos h8]
      unfold esc
      rw [if_neg h1, if_neg h2, if_neg h3, if_neg h6, if_neg h5, if_neg h4, if_neg h7]
    · have hp : is_plain b = true := by
        rw [is_plain_iff]
        exact ⟨by omega, h1, h2⟩
      rw [if_pos hp, if_neg h1, if_neg h2, if_neg h3, if_neg h4, if_neg h5, if_neg h6,
        if_neg h7, if_neg h8]
  rw [hXE]

theorem claim_C7_witness :
    (9 : Nat) < 256 ∧ flatcc_json_printer_init.sink = Sink.file ∧
    (print_string flatcc_json_printer_init [9]).emitted
      = [0x22, 0x5c, 0x74, 0x22] :=
  ⟨by decide, rfl, by
    rw [claim_C7 9 flatcc_json_printer_init (by decide) rfl]
    rfl⟩

/-! ## Claim C3: the two-slot union field -/

@[simp] theorem buf_emit (ctx : Ctx) (s : List Nat) :
    (emit ctx s).buf = ctx.buf ++ s := rfl

/-- The union-field emitter as claim C3 states it: if either the discriminant
slot at `id−1` or the value slot at `id` is absent, emit nothing; otherwise
emit the key `name_type` (through the standard name primitive) followed by the
discriminant — as an integer under the enum-as-integer policy, else through
the discriminant callback — and, exactly when the discriminant is non-zero, a
comma, the key `name`, and the union value as a table object dispatched
through the table callback with that discriminant. -/
def union_field_claim (b : List Nat) (ctx : Ctx) (td : TableDescriptor)
    (id : Nat) (name : List Nat) (ptf : Ctx → Nat → Ctx)
    (pf : Ctx → TableDescriptor → Ctx) : Ctx × TableDescriptor :=
  match get_field_ptr b td (id - 1), get_field_ptr b td id with
  | some pt, some p =>
      let d := readU8 b pt
      let ctx := if td.count ≠ 0 then print_char ctx 0x2c else ctx
      let td := { td with count := td.count + 1 }
      let ctx := print_name ctx (name ++ str_type)
      let ctx := if ctx.noenum then emit ctx (decDigits d) else ptf ctx d
      if d ≠ 0 then
        (print_table_object b (print_name (print_char ctx 0x2c) name)
          (read_uoffset_ptr b p) td.ttl d pf, td)
      else (ctx, td)
  | _, _ => (ctx, td)

@[simp] theorem flushSize_emit (ctx : Ctx) (s : List Nat) :
    (emit ctx s).flushSize = ctx.flushSize := rfl

theorem emit_emit (ctx : Ctx) (s t : List Nat) :
    emit (emit ctx s) t = emit ctx (s ++ t) := by
  simp [emit, List.append_assoc]

/-- In compact quoted mode with room below the flush threshold, the inlined
`name_type` key emission of `flatcc_json_printer_union_field`
(json_printer.c:910-923) coincides with the name primitive applied to
`n ++ "_type"`. -/
theorem union_key_eq (x : Ctx) (n : List Nat) (hi : x.indent = 0)
    (hu : x.unquote = false) (hr : x.buf.length + n.length + 8 ≤ x.flushSize) :
    print_space (print_char
      (emit
        (print_string_part
          (if (emit (print_nl x) (if (print_nl x).unquote then [] else [0x22])).buf.length
              + n.length <
              (emit (print_nl x) (if (print_nl x).unquote then [] else [0x22])).flushSize then
            emit (emit (print_nl x) (if (print_nl x).unquote then [] else [0x22])) n
          else
            print_string_part
              (emit (print_nl x) (if (print_nl x).unquote then [] else [0x22])) n)
          str_type)
        (if (print_string_part
            (if (emit (print_nl x) (if (print_nl x).unquote then [] else [0x22])).buf.length
                + n.length <
                (emit (print_nl x) (if (print_nl x).unquote then [] else [0x22])).flushSize then
              emit (emit (print_nl x) (if (print_nl x).unquote then [] else [0x22])) n
            else
              print_string_part
                (emit (print_nl x) (if (print_nl x).unquote then [] else [0x22])) n)
            str_type).unquote then [] else [0x22]))
      0x3a)
    = print_name x (n ++ str_type) := by
  have hnl : print_nl x = x := by
    unfold print_nl flush_partial
    rw [if_neg (by rw [hi]; simp), if_neg (by omega)]
  rw [hnl, hu]
  simp only [Bool.false_eq_true, if_false]
  have hc1 : (emit x [0x22]).buf.length + n.length < (emit x [0x22]).flushSize := by
    simp only [buf_emit, flushSize_emit, List.length_append, List.length_cons,
      List.length_nil]
    omega
  rw [if_pos hc1]
  have hpsp : print_string_part (emit (emit x [0x22]) n) str_type
      = emit (emit (emit x [0x22]) n) str_type := by
    unfold print_string_part
    rw [if_neg (by
      simp only [buf_emit, flushSize_emit, List.length_append, List.length_cons,
        List.length_nil, str_type]
      omega)]
  rw [hpsp]
  have hq : (emit (emit (emit x [0x22]) n) str_type).unquote = false := hu
  rw [hq]
  simp only [Bool.false_eq_true, if_false]
  unfold print_name print_symbol
  rw [hnl, hu]
  simp only [Bool.false_eq_true, if_false]
  have hc2 : (emit x [0x22]).buf.length + (n ++ str_type).length
      < (emit x [0x22]).flushSize := by
    simp only [buf_emit, flushSize_emit, List.length_append, List.length_cons,
      List.length_nil, str_type]
    omega
  rw [if_pos hc2]
  have hq2 : (emit (emit x [0x22]) (n ++ str_type)).unquote = false := hu
  rw [hq2]
  simp only [Bool.false_eq_true, if_false]
  rw [emit_emit (emit x [0x22]) n str_type]

/-- C3: the union field emitter behaves as the claim describes: it emits
nothing when either slot is absent, and otherwise equals the claim's
step-by-step description (in compact quoted mode with enough buffer room that
the printing stays within the flush threshold — the inlined `name_type` key
emission of the source coincides with the name primitive applied to
`name ++ "_type"`). -/
theorem claim_C3 (b : List Nat) (ctx : Ctx) (td : TableDescriptor) (id : Nat)
    (name : List Nat) (ptf : Ctx → Nat → Ctx) (pf : Ctx → TableDescriptor → Ctx) :
    ((get_field_ptr b td (id - 1) = none ∨ get_field_ptr b td id = none) →
      flatcc_json_printer_union_field b ctx td id name ptf pf = (ctx, td) ∧
      union_field_claim b ctx td id name ptf pf = (ctx, td)) ∧
    (ctx.indent = 0 → ctx.unquote = false →
      ctx.buf.length + name.length + 16 ≤ ctx.flushSize →
      flatcc_json_printer_union_field b ctx td id name ptf pf =
        union_field_claim b ctx td id name ptf pf) := by
  constructor
  · intro hnone
    unfold flatcc_json_printer_union_field union_field_claim
    rcases h1 : get_field_ptr b td (id - 1) with _ | pt <;>
      rcases h2 : get_field_ptr b td id with _ | p <;>
        simp only [h1, h2] at hnone ⊢
    · exact ⟨trivial, trivial⟩
    · exact ⟨trivial, trivial⟩
    · exact ⟨trivial, trivial⟩
    · rcases hnone with h | h <;> cases h
  · intro hi hu hroom
    unfold flatcc_json_printer_union_field union_field_claim
    rcases h1 : get_field_ptr b td (id - 1) with _ | pt <;>
      rcases h2 : get_field_ptr b td id with _ | p <;>
        simp only [h1, h2]
    set c1 := if td.count ≠ 0 then print_char ctx 0x2c else ctx with hc1def
    have hc1i : c1.indent = 0 := by
      rw [hc1def]; split <;> simpa [print_char, emit]
    have hc1u : c1.unquote = false := by
      rw [hc1def]; split <;> simpa [print_char, emit]
    have hc1fs : c1.flushSize = ctx.flushSize := by
      rw [hc1def]; split <;> rfl
    have hc1len : c1.buf.length ≤ ctx.buf.length + 1 := by
      rw [hc1def]; split <;> simp [print_char, emit]
    rw [union_key_eq c1 name hc1i hc1u (by omega)]

/-- A concrete buffer with a union field: vtable at 0 (`vsize = 8`,
discriminant slot id 0 at table offset 4, value slot id 1 at table offset 8),
table body at 8, discriminant 1 at 12, value offset at 16 pointing to the
empty table at 24 whose vtable sits at 32. -/
def unionBuf : List Nat :=
  [8, 0, 12, 0, 4, 0, 8, 0,
   8, 0, 0, 0, 1, 0, 0, 0,
   8, 0, 0, 0, 0, 0, 0, 0,
   0xf8, 0xff, 0xff, 0xff, 0, 0, 0, 0,
   4, 0, 4, 0]

def unionTd : TableDescriptor :=
  { type := 0, count := 0, ttl := 50, table := 8, vtable := 0, vsize := 8 }

theorem claim_C3_witness :
    flatcc_json_printer_init.indent = 0 ∧
    flatcc_json_printer_init.unquote = false ∧
    flatcc_json_printer_init.buf.length + [0x75].length + 16
      ≤ flatcc_json_printer_init.flushSize ∧
    (flatcc_json_printer_union_field unionBuf flatcc_json_printer_init unionTd 1 [0x75]
        (fun c t => emit c (decDigits t)) (fun c _ => c)
      = union_field_claim unionBuf flatcc_json_printer_init unionTd 1 [0x75]
        (fun c t => emit c (decDigits t)) (fun c _ => c)) ∧
    (flatcc_json_printer_union_field unionBuf flatcc_json_printer_init unionTd 1 [0x75]
        (fun c t => emit c (decDigits t)) (fun c _ => c)).1.emitted
      = [0x22, 0x75, 0x5f, 0x74, 0x79, 0x70, 0x65, 0x22, 0x3a, 0x31,
         0x2c, 0x22, 0x75, 0x22, 0x3a, 0x7b, 0x7d] :=
  ⟨rfl, rfl, by decide,
    (claim_C3 unionBuf flatcc_json_printer_init unionTd 1 [0x75]
        (fun c t => emit c (decDigits t)) (fun c _ => c)).2 rfl rfl (by decide),
    by decide⟩

/-! ## Claim C9: the identifier length cap of the union vector emitter -/

/-- C9: when the field name exceeds `FLATCC_JSON_PRINT_NAME_LEN_MAX`,
`flatcc_json_printer_union_vector_field` latches `bad_input` and returns
before emitting anything: the context is returned with only the sticky error
changed, the emitted bytes and the descriptor untouched. -/
theorem claim_C9 (b : List Nat) (ctx : Ctx) (td : TableDescriptor) (id : Nat)
    (name : List Nat) (ptf : Ctx → Nat → Ctx) (pf : Ctx → TableDescriptor → Ctx)
    (hlen : name.length > FLATCC_JSON_PRINT_NAME_LEN_MAX) :
    flatcc_json_printer_union_vector_field b ctx td id name ptf pf
      = (set_error ctx errBadInput, td) ∧
    (ctx.err = 0 →
      (flatcc_json_printer_union_vector_field b ctx td id name ptf pf).1.err
        = errBadInput) ∧
    (flatcc_json_printer_union_vector_field b ctx td id name ptf pf).1.emitted
      = ctx.emitted := by
  have hmain : flatcc_json_printer_union_vector_field b ctx td id name ptf pf
      = (set_error ctx errBadInput, td) := by
    unfold flatcc_json_printer_union_vector_field
    rw [if_pos hlen]
  refine ⟨hmain, ?_, ?_⟩
  · intro he
    rw [hmain]
    unfold set_error
    rw [if_pos he]
  · rw [hmain]
    exact (set_error_fields ctx errBadInput).2.2.2.2.2.2.2.2.2.2.2

theorem claim_C9_witness :
    (List.replicate 65 0x61).length > FLATCC_JSON_PRINT_NAME_LEN_MAX ∧
    flatcc_json_printer_union_vector_field [] flatcc_json_printer_init unionTd 1
        (List.replicate 65 0x61) (fun c _ => c) (fun c _ => c)
      = (set_error flatcc_json_printer_init errBadInput, unionTd) ∧
    (flatcc_json_printer_union_vector_field [] flatcc_json_printer_init unionTd 1
        (List.replicate 65 0x61) (fun c _ => c) (fun c _ => c)).1.err = errBadInput :=
  ⟨by decide,
    (claim_C9 [] flatcc_json_printer_init unionTd 1 (List.replicate 65 0x61)
      (fun c _ => c) (fun c _ => c) (by decide)).1,
    (claim_C9 [] flatcc_json_printer_init unionTd 1 (List.replicate 65 0x61)
      (fun c _ => c) (fun c _ => c) (by decide)).2.1 rfl⟩

/-! ## Claim C4: the union vector field -/

/-- One element of the union value vector, as claim C4 states it: element `j`
(discriminants 1 byte each at `t + 4`, offsets 4 bytes each at `v + 4`) is
`null` iff its discriminant is zero, else the table object dispatched with
that discriminant; elements after the first are preceded by a comma. -/
def union_vector_elem_step (b : List Nat) (pf : Ctx → TableDescriptor → Ctx)
    (ttl : Int) (v t : Nat) (c : Ctx) (j : Nat) : Ctx :=
  let c := if j ≠ 0 then print_char c 0x2c else c
  let d := readU8 b (t + 4 + j)
  if d ≠ 0 then print_table_object b c (read_uoffset_ptr b (v + 4 + 4 * j)) ttl d pf
  else print_null c

/-- The union-vector emitter as claim C4 states it: when both the
discriminant vector (slot `id−1`) and the offset vector (slot `id`) are
present, first emit the scalar-vector field named `name ++ "_type"` through
the utype enum vector formatter, then a `[...]` vector whose element `j` is
`null` iff discriminant `d[j] = 0` and otherwise the table object of element
`j` dispatched with `d[j]`. -/
def union_vector_field_claim (b : List Nat) (ctx : Ctx) (td : TableDescriptor)
    (id : Nat) (name : List Nat) (ptf : Ctx → Nat → Ctx)
    (pf : Ctx → TableDescriptor → Ctx) : Ctx × TableDescriptor :=
  match get_field_ptr b td id, get_field_ptr b td (id - 1) with
  | some p, some pt =>
      let r := flatcc_json_printer_utype_enum_vector_field b ctx td (id - 1)
                 (name ++ str_type) ptf
      let ctx := r.1
      let td := r.2
      let ctx := if td.count ≠ 0 then print_char ctx 0x2c else ctx
      let v := read_uoffset_ptr b p
      let t := read_uoffset_ptr b pt
      let ctx := print_start (print_name ctx name) 0x5b
      let ctx := (List.range (readU32 b v)).foldl
                   (union_vector_elem_step b pf td.ttl v t) ctx
      (print_end ctx 0x5d, { td with count := td.count + 1 })
  | _, _ => (ctx, td)

/-- The pointer-marching `while` loop equals the index-based description:
starting after element `i`, it processes elements `i+1 … i+n` in order. -/
theorem union_vector_go_eq (b : List Nat) (pf : Ctx → TableDescriptor → Ctx)
    (ttl : Int) (v t : Nat) :
    ∀ (n i : Nat) (ctx : Ctx),
      union_vector_go b pf ttl ctx (v + 4 + 4 * i) (t + 4 + i) n =
        (List.range' (i + 1) n).foldl (union_vector_elem_step b pf ttl v t) ctx := by
  intro n
  induction n with
  | zero => intro i ctx; rfl
  | succ m ih =>
      intro i ctx
      rw [show List.range' (i + 1) (m + 1) = (i + 1) :: List.range' (i + 2) m from
        List.range'_succ (i + 1) m 1]
      rw [List.foldl_cons]
      show (let type := readU8 b (t + 4 + i + 1)
            let c := print_char ctx 0x2c
            let c := if type ≠ 0 then
                print_table_object b c (read_uoffset_ptr b (v + 4 + 4 * i + 4)) ttl type pf
              else print_null c
            union_vector_go b pf ttl c (v + 4 + 4 * i + 4) (t + 4 + i + 1) m) = _
      have ha : v + 4 + 4 * i + 4 = v + 4 + 4 * (i + 1) := by ring
      have hb : t + 4 + i + 1 = t + 4 + (i + 1) := by ring
      rw [ha, hb, ih (i + 1)]
      show (List.range' (i + 1 + 1) m).foldl (union_vector_elem_step b pf ttl v t)
          (if readU8 b (t + 4 + (i + 1)) ≠ 0 then
            print_table_object b (print_char ctx 0x2c)
              (read_uoffset_ptr b (v + 4 + 4 * (i + 1))) ttl
              (readU8 b (t + 4 + (i + 1))) pf
          else print_null (print_char ctx 0x2c)) = _
      unfold union_vector_elem_step
      rw [if_pos (by omega : i + 1 ≠ 0)]

/-- C4: for a name within the identifier cap, the union-vector emitter equals
the claim's description (emit the `name ++ "_type"` scalar-vector field via
the enum formatter, then the value vector with element `j` null iff its
discriminant is zero, else the dispatched table object); in particular it
emits nothing unless both vectors are present. -/
theorem claim_C4 (b : List Nat) (ctx : Ctx) (td : TableDescriptor) (id : Nat)
    (name : List Nat) (ptf : Ctx → Nat → Ctx) (pf : Ctx → TableDescriptor → Ctx)
    (hlen : name.length ≤ FLATCC_JSON_PRINT_NAME_LEN_MAX) :
    flatcc_json_printer_union_vector_field b ctx td id name ptf pf =
      union_vector_field_claim b ctx td id name ptf pf := by
  unfold flatcc_json_printer_union_vector_field union_vector_field_claim
  rw [if_neg (by omega)]
  rcases h1 : get_field_ptr b td id with _ | p <;>
    rcases h2 : get_field_ptr b td (id - 1) with _ | pt <;>
      simp only [h1, h2]
  set r := flatcc_json_printer_utype_enum_vector_field b ctx td (id - 1)
    (name ++ str_type) ptf with hr
  set c2 := if r.2.count ≠ 0 then print_char r.1 0x2c else r.1 with hc2
  set v := read_uoffset_ptr b p with hv
  set t := read_uoffset_ptr b pt with ht
  set c3 := print_start (print_name c2 name) 0x5b with hc3
  by_cases hcnt : readU32 b v ≠ 0
  · obtain ⟨m, hm⟩ : ∃ m, readU32 b v = m + 1 := ⟨readU32 b v - 1, by omega⟩
    rw [if_pos hcnt, hm]
    rw [show List.range (m + 1) = List.range' 0 (m + 1) from List.range_eq_range' _]
    rw [show List.range' 0 (m + 1) = 0 :: List.range' 1 m from List.range'_succ 0 m 1]
    rw [List.foldl_cons]
    have hstep0 : union_vector_elem_step b pf r.2.ttl v t c3 0 =
        (if readU8 b (t + 4) ≠ 0 then
          print_table_object b c3 (read_uoffset_ptr b (v + 4)) r.2.ttl
            (readU8 b (t + 4)) pf
        else print_null c3) := by
      unfold union_vector_elem_step
      rw [if_neg (by omega : ¬ (0 : Nat) ≠ 0)]
    rw [show m + 1 - 1 = m from rfl, hstep0]
    have hgo := union_vector_go_eq b pf r.2.ttl v t m 0
      (if readU8 b (t + 4) ≠ 0 then
        print_table_object b c3 (read_uoffset_ptr b (v + 4)) r.2.ttl
          (readU8 b (t + 4)) pf
      else print_null c3)
    simp only [Nat.mul_zero, Nat.add_zero, Nat.zero_add] at hgo
    rw [hgo]
  · rw [if_neg hcnt]
    have h0 : readU32 b v = 0 := by omega
    rw [h0]
    rfl

/-- A concrete buffer with a union vector: discriminant vector `[0, 2]` at 24
(slot id 0), offset vector at 32 (slot id 1) whose element 1 points at the
empty table at 48 (vtable at 56). -/
def unionVecBuf : List Nat :=
  [8, 0, 12, 0, 4, 0, 8, 0,
   8, 0, 0, 0, 12, 0, 0, 0,
   16, 0, 0, 0, 0, 0, 0, 0,
   2, 0, 0, 0, 0, 2, 0, 0,
   2, 0, 0, 0, 0, 0, 0, 0,
   8, 0, 0, 0, 0, 0, 0, 0,
   0xf8, 0xff, 0xff, 0xff, 0, 0, 0, 0,
   4, 0, 4, 0]

theorem claim_C4_witness :
    [0x6b].length ≤ FLATCC_JSON_PRINT_NAME_LEN_MAX ∧
    (flatcc_json_printer_union_vector_field unionVecBuf flatcc_json_printer_init
        unionTd 1 [0x6b] (fun c t => emit c (decDigits t)) (fun c _ => c)
      = union_vector_field_claim unionVecBuf flatcc_json_printer_init
          unionTd 1 [0x6b] (fun c t => emit c (decDigits t)) (fun c _ => c)) ∧
    (flatcc_json_printer_union_vector_field unionVecBuf flatcc_json_printer_init
        unionTd 1 [0x6b] (fun c t => emit c (decDigits t)) (fun c _ => c)).1.emitted
      = [0x22, 0x6b, 0x5f, 0x74, 0x79, 0x70, 0x65, 0x22, 0x3a,
         0x5b, 0x30, 0x2c, 0x32, 0x5d,
         0x2c, 0x22, 0x6b, 0x22, 0x3a,
         0x5b, 0x6e, 0x75, 0x6c, 0x6c, 0x2c, 0x7b, 0x7d, 0x5d] :=
  ⟨by decide,
    claim_C4 unionVecBuf flatcc_json_printer_init unionTd 1 [0x6b]
      (fun c t => emit c (decDigits t)) (fun c _ => c) (by decide),
    by decide⟩

/-! ## Claim C8: chunked base64 emission

The base64 encoder lives in `pbase64.h` (not under src); it is modelled from
the spec's description: RFC 4648 standard or URL-safe alphabet, with `=`
padding on the final group when the padding modifier is set. -/

/-- Modelled from the spec: the RFC 4648 alphabet (URL-safe swaps `+/` for
`-_`). -/
def b64char (url : Bool) (i : Nat) : Nat :=
  if i < 26 then 65 + i
  else if i < 52 then 97 + (i - 26)
  else if i < 62 then 48 + (i - 52)
  else if i = 62 then (if url then 45 else 43)
  else (if url then 95 else 47)

/-- Modelled from the spec: `base64_encoded_size` — 4·⌈n/3⌉ with padding,
⌈4n/3⌉ without. -/
def base64_encoded_size (n : Nat) (pad : Bool) : Nat :=
  if pad then 4 * ((n + 2) / 3) else (4 * n + 2) / 3

/-- Modelled from the spec: `base64_encode` over a whole byte list; only the
final group is padded, and only when `pad` is set. -/
def base64_encode_list (url pad : Bool) : List Nat → List Nat
  | a :: b :: c :: rest =>
      b64char url (a / 4) :: b64char url ((a % 4) * 16 + b / 16) ::
      b64char url ((b % 16) * 4 + c / 64) :: b64char url (c % 64) ::
      base64_encode_list url pad rest
  | [a, b] =>
      [b64char url (a / 4), b64char url ((a % 4) * 16 + b / 16),
       b64char url ((b % 16) * 4)] ++ (if pad then [61] else [])
  | [a] =>
      [b64char url (a / 4), b64char url ((a % 4) * 16)] ++
        (if pad then [61, 61] else [])
  | [] => []

/-- Modelled from the spec: the inverse alphabet. -/
def b64index (url : Bool) (c : Nat) : Option Nat :=
  if 65 ≤ c ∧ c ≤ 90 then some (c - 65)
  else if 97 ≤ c ∧ c ≤ 122 then some (c - 97 + 26)
  else if 48 ≤ c ∧ c ≤ 57 then some (c - 48 + 52)
  else if c = (if url then 45 else 43) then some 62
  else if c = (if url then 95 else 47) then some 63
  else none

/-- Modelled from the spec: base64 decoding of a padded encoding. -/
def base64_decode_list (url : Bool) : List Nat → Option (List Nat)
  | [] => some []
  | c1 :: c2 :: c3 :: c4 :: rest =>
      match b64index url c1, b64index url c2 with
      | some i1, some i2 =>
          if c3 = 61 ∧ c4 = 61 ∧ rest = [] then
            some [i1 * 4 + i2 / 16]
          else if c4 = 61 ∧ rest = [] then
            match b64index url c3 with
            | some i3 => some [i1 * 4 + i2 / 16, (i2 % 16) * 16 + i3 / 4]
            | none => none
          else
            match b64index url c3, b64index url c4, base64_decode_list url rest with
            | some i3, some i4, some bs =>
                some ([i1 * 4 + i2 / 16, (i2 % 16) * 16 + i3 / 4,
                  (i3 % 4) * 64 + i4] ++ bs)
            | _, _, _ => none
      | _, _ => none
  | _ => none

theorem b64index_b64char_fin : ∀ (u : Bool) (i : Fin 64),
    b64index u (b64char u i) = some i := by decide

theorem b64index_b64char (u : Bool) (i : Nat) (h : i < 64) :
    b64index u (b64char u i) = some i :=
  b64index_b64char_fin u ⟨i, h⟩

theorem b64char_ne_61_fin : ∀ (u : Bool) (i : Fin 64), b64char u i ≠ 61 := by decide

theorem b64char_ne_61 (u : Bool) (i : Nat) (h : i < 64) : b64char u i ≠ 61 :=
  b64char_ne_61_fin u ⟨i, h⟩

theorem base64_roundtrip (url : Bool) :
    ∀ (xs : List Nat), (∀ x ∈ xs, x < 256) →
      base64_decode_list url (base64_encode_list url true xs) = some xs
  | [], _ => rfl
  | [a], h => by
      have ha : a < 256 := h a (by simp)
      have h1 := b64index_b64char url (a / 4) (by omega)
      have h2 := b64index_b64char url ((a % 4) * 16) (by omega)
      have e1 : a / 4 * 4 + a % 4 * 16 / 16 = a := by omega
      simp [base64_encode_list, base64_decode_list, h1, h2, e1]
      omega
  | [a, b], h => by
      have ha : a < 256 := h a (by simp)
      have hb : b < 256 := h b (by simp)
      have h1 := b64index_b64char url (a / 4) (by omega)
      have h2 := b64index_b64char url ((a % 4) * 16 + b / 16) (by omega)
      have h3 := b64index_b64char url ((b % 16) * 4) (by omega)
      have hne : b64char url ((b % 16) * 4) ≠ 61 := b64char_ne_61 url _ (by omega)
      have e1 : a / 4 * 4 + (a % 4 * 16 + b / 16) / 16 = a := by omega
      have e2 : (a % 4 * 16 + b / 16) % 16 * 16 + b % 16 * 4 / 4 = b := by omega
      simp [base64_encode_list, base64_decode_list, h1, h2, h3, hne, e1, e2]
      omega
  | a :: b :: c :: rest, h => by
      have ha : a < 256 := h a (by simp)
      have hb : b < 256 := h b (by simp)
      have hc : c < 256 := h c (by simp)
      have ih := base64_roundtrip url rest (fun x hx => h x (by simp [hx]))
      have h1 := b64index_b64char url (a / 4) (by omega)
      have h2 := b64index_b64char url ((a % 4) * 16 + b / 16) (by omega)
      have h3 := b64index_b64char url ((b % 16) * 4 + c / 64) (by omega)
      have h4 := b64index_b64char url (c % 64) (by omega)
      have hne3 : b64char url ((b % 16) * 4 + c / 64) ≠ 61 :=
        b64char_ne_61 url _ (by omega)
      have hne4 : b64char url (c % 64) ≠ 61 := b64char_ne_61 url _ (by omega)
      have e1 : a / 4 * 4 + (a % 4 * 16 + b / 16) / 16 = a := by omega
      have e2 : (a % 4 * 16 + b / 16) % 16 * 16 + (b % 16 * 4 + c / 64) / 4 = b := by
        omega
      have e3 : (b % 16 * 4 + c / 64) % 4 * 64 + c % 64 = c := by omega
      simp [base64_encode_list, base64_decode_list, h1, h2, h3, h4, hne3, hne4,
        ih, e1, e2, e3]

theorem base64_encode_append (url pad : Bool) :
    ∀ (ys zs : List Nat), ys.length % 3 = 0 →
      base64_encode_list url false ys ++ base64_encode_list url pad zs
        = base64_encode_list url pad (ys ++ zs)
  | [], zs, _ => by simp [base64_encode_list]
  | [a], _, h => by simp at h
  | [a, b], _, h => by simp at h
  | a :: b :: c :: rest, zs, h => by
      have h3 : rest.length % 3 = 0 := by
        simp only [List.length_cons] at h
        omega
      simp only [base64_encode_list, List.cons_append]
      rw [base64_encode_append url pad rest zs h3]
      rfl

theorem base64_encode_length_unpadded (url : Bool) :
    ∀ (ys : List Nat), ys.length % 3 = 0 →
      (base64_encode_list url false ys).length = 4 * (ys.length / 3)
  | [], _ => rfl
  | [a], h => by simp at h
  | [a, b], h => by simp at h
  | a :: b :: c :: rest, h => by
      have h3 : rest.length % 3 = 0 := by
        simp only [List.length_cons] at h
        omega
      simp only [base64_encode_list, List.length_cons,
        base64_encode_length_unpadded url rest h3]
      omega

/-- The `while` loop plus final encode of `print_uint8_vector_base64_object`
(json_printer.c:261-278): while the padded encoding of the remaining bytes
does not fit below the flush threshold, encode `(pflush − p) & ~3` output
characters' worth of input (a multiple of 3 bytes) without padding, flush,
and repeat; then encode the remainder with padding.  The `k = 0` branch
guards the configuration on which the source's `assert(n > 0)` would fire; it
is unreachable under the theorem's hypotheses. -/
def print_b64_go (ctx : Ctx) (url pad : Bool) (data : List Nat) : Ctx :=
  if ctx.buf.length + base64_encoded_size data.length pad > ctx.flushSize then
    let k := (ctx.flushSize - ctx.buf.length) - (ctx.flushSize - ctx.buf.length) % 4
    if k = 0 then ctx
    else
      print_b64_go ((emit ctx (base64_encode_list url false
        (data.take (k * 3 / 4)))).flush false) url pad (data.drop (k * 3 / 4))
  else emit ctx (base64_encode_list url pad data)
termination_by data.length
decreasing_by
  rename_i hcond hk
  simp only [List.length_drop]
  by_cases hd : data.length = 0
  · exfalso
    have hlen0 : base64_encoded_size data.length pad = 0 := by
      rw [hd]
      unfold base64_encoded_size
      split <;> rfl
    omega
  · omega

/-- `print_uint8_vector_base64_object` (json_printer.c:248): the byte vector
is length-prefixed at `p`; emit a quote, the chunked base64 encoding, and a
closing quote.  `mode` is split into the URL-safe flag and the padding
modifier. -/
def print_uint8_vector_base64_object (b : List Nat) (ctx : Ctx) (p : Nat)
    (url pad : Bool) : Ctx :=
  let data := readBytes b (p + 4) (readU32 b p)
  let ctx := print_char ctx 0x22
  let ctx :=
    if ctx.buf.length + base64_encoded_size data.length pad ≥ ctx.flushSize then
      ctx.flush false
    else ctx
  print_char (print_b64_go ctx url pad data) 0x22

/-- `flatcc_json_printer_uint8_vector_base64_field` (json_printer.c:556): the
field emitter always sets the padding modifier. -/
def flatcc_json_printer_uint8_vector_base64_field (b : List Nat) (ctx : Ctx)
    (td : TableDescriptor) (id : Nat) (name : List Nat) (urlsafe : Bool) :
    Ctx × TableDescriptor :=
  match get_field_ptr b td id with
  | some p =>
      (print_uint8_vector_base64_object b
        (print_name (if td.count ≠ 0 then print_char ctx 0x2c else ctx) name)
        (read_uoffset_ptr b p) urlsafe true,
       { td with count := td.count + 1 })
  | none => (ctx, td)

/-- A flush on a file sink never leaves more than it started with; below the
threshold it empties the buffer entirely. -/
theorem flush_empties (ctx : Ctx) (hs : ctx.sink = Sink.file)
    (hle : ctx.buf.length ≤ ctx.flushSize) : (ctx.flush false).buf.length = 0 := by
  unfold Ctx.flush
  split
  · split
    · rename_i hc
      simp only [List.length_drop]
      omega
    · rfl
  · rename_i hsc; rw [hs] at hsc; cases hsc
  · rename_i hsc; rw [hs] at hsc; cases hsc

theorem print_b64_go_spec :
    ∀ (ctx : Ctx) (url pad : Bool) (data : List Nat),
      ctx.sink = Sink.file → 4 ≤ ctx.flushSize →
      (ctx.buf.length = 0 ∨
        ctx.buf.length + base64_encoded_size data.length pad ≤ ctx.flushSize) →
      EmitsOn ctx (print_b64_go ctx url pad data) (base64_encode_list url pad data) := by
  intro ctx url pad data
  induction ctx, url, pad, data using print_b64_go.induct with
  | case3 ctx url pad data hcond =>
      intro hs h4 hstart
      rw [print_b64_go, if_neg hcond]
      exact emitsOn_emit ctx _ hs
  | case1 ctx url pad data hcond k hk =>
      intro hs h4 hstart
      exfalso
      have hkdef : k = ctx.flushSize - ctx.buf.length
          - (ctx.flushSize - ctx.buf.length) % 4 := rfl
      rcases hstart with h0 | hle
      · rw [h0] at hkdef
        omega
      · omega
  | case2 ctx url pad data hcond k hk ih =>
      intro hs h4 hstart
      rw [print_b64_go, if_pos hcond, if_neg hk]
      have h0 : ctx.buf.length = 0 := by
        rcases hstart with h0 | hle
        · exact h0
        · omega
      have hkdef : k = ctx.flushSize - ctx.buf.length
          - (ctx.flushSize - ctx.buf.length) % 4 := rfl
      have hk4 : k % 4 = 0 := by omega
      have hkfs : k ≤ ctx.flushSize := by omega
      have hkge : 4 ≤ k := by omega
      -- the loop consumes fewer bytes than remain
      have hlt : k * 3 / 4 < data.length := by
        have hsz : ctx.flushSize < base64_encoded_size data.length pad := by omega
        unfold base64_encoded_size at hsz
        rcases pad with _ | _ <;> simp only [Bool.false_eq_true, if_false, if_pos] at hsz
        · omega
        · omega
      have htk : (data.take (k * 3 / 4)).length = k * 3 / 4 := by
        rw [List.length_take]
        omega
      have htk3 : (data.take (k * 3 / 4)).length % 3 = 0 := by
        rw [htk]
        omega
      have hel : (base64_encode_list url false (data.take (k * 3 / 4))).length = k := by
        rw [base64_encode_length_unpadded url _ htk3, htk]
        omega
      have e1 := emitsOn_emit ctx (base64_encode_list url false (data.take (k * 3 / 4))) hs
      have e2 := emitsOn_flush _ false (emitsOn_sink e1)
      have e12 := emitsOn_trans e1 e2
      have hbuf2 : ((emit ctx (base64_encode_list url false
          (data.take (k * 3 / 4)))).flush false).buf.length = 0 := by
        apply flush_empties _ (emitsOn_sink e1)
        simp only [buf_emit, List.length_append, flushSize_emit, hel, h0]
        omega
      have e3 := ih (emitsOn_sink e12) (by
          obtain ⟨-, -, -, -, -, -, -, hfs, -⟩ := e12
          omega) (Or.inl hbuf2)
      have e := emitsOn_trans e12 e3
      obtain ⟨a1, a2, a3, a4, a5, a6, a7, a8, a9⟩ := e
      refine ⟨a1, a2, a3, a4, a5, a6, a7, a8, ?_⟩
      rw [a9]
      rw [List.append_nil]
      rw [base64_encode_append url pad _ _ htk3, List.take_append_drop]

/-- C8: `print_uint8_vector_base64_object` emits, between two quotes, exactly
the base64 encoding of the `L` input bytes regardless of how the chunking
interleaves with flushes, and base64-decoding that concatenated output yields
exactly the original bytes. -/
theorem claim_C8 (b : List Nat) (ctx : Ctx) (p : Nat) (url : Bool)
    (hs : ctx.sink = Sink.file) (h4 : 4 ≤ ctx.flushSize)
    (hb : ctx.buf.length < ctx.flushSize) :
    (print_uint8_vector_base64_object b ctx p url true).emitted
      = ctx.emitted ++ 0x22 ::
          (base64_encode_list url true (readBytes b (p + 4) (readU32 b p)) ++ [0x22]) ∧
    base64_decode_list url
        (base64_encode_list url true (readBytes b (p + 4) (readU32 b p)))
      = some (readBytes b (p + 4) (readU32 b p)) := by
  constructor
  · unfold print_uint8_vector_base64_object
    have e1 := print_char_spec ctx 0x22 hs
    have hq : EmitsOn (print_char ctx 0x22)
        (if (print_char ctx 0x22).buf.length +
            base64_encoded_size (readBytes b (p + 4) (readU32 b p)).length true
            ≥ (print_char ctx 0x22).flushSize then
          (print_char ctx 0x22).flush false
        else print_char ctx 0x22) [] := by
      split
      · exact emitsOn_flush _ false (emitsOn_sink e1)
      · exact emitsOn_refl _ (emitsOn_sink e1)
    have e12 := emitsOn_trans e1 hq
    have hflat :
        (if (print_char ctx 0x22).buf.length +
            base64_encoded_size (readBytes b (p + 4) (readU32 b p)).length true
            ≥ (print_char ctx 0x22).flushSize then
          (print_char ctx 0x22).flush false
        else print_char ctx 0x22).buf.length = 0 ∨
        (if (print_char ctx 0x22).buf.length +
            base64_encoded_size (readBytes b (p + 4) (readU32 b p)).length true
            ≥ (print_char ctx 0x22).flushSize then
          (print_char ctx 0x22).flush false
        else print_char ctx 0x22).buf.length +
          base64_encoded_size (readBytes b (p + 4) (readU32 b p)).length true
          ≤ (if (print_char ctx 0x22).buf.length +
              base64_encoded_size (readBytes b (p + 4) (readU32 b p)).length true
              ≥ (print_char ctx 0x22).flushSize then
            (print_char ctx 0x22).flush false
          else print_char ctx 0x22).flushSize := by
      split
      · left
        apply flush_empties _ (emitsOn_sink e1)
        simp only [print_char, buf_emit, List.length_append, flushSize_emit]
        simp only [List.length_cons, List.length_nil]
        omega
      · right
        rename_i hlt
        simp only [print_char, buf_emit, flushSize_emit] at hlt ⊢
        omega
    have hfs2 : (if (print_char ctx 0x22).buf.length +
            base64_encoded_size (readBytes b (p + 4) (readU32 b p)).length true
            ≥ (print_char ctx 0x22).flushSize then
          (print_char ctx 0x22).flush false
        else print_char ctx 0x22).flushSize = ctx.flushSize := by
      obtain ⟨-, -, -, -, -, -, -, hfs, -⟩ := e12
      exact hfs
    have e3 := print_b64_go_spec _ url true (readBytes b (p + 4) (readU32 b p))
      (emitsOn_sink e12) (by rw [hfs2]; exact h4) hflat
    have e123 := emitsOn_trans e12 e3
    have e4 := print_char_spec _ 0x22 (emitsOn_sink e123)
    have e := emitsOn_trans e123 e4
    obtain ⟨-, -, -, -, -, -, -, -, a9⟩ := e
    rw [a9]
    simp [List.append_assoc]
  · exact base64_roundtrip url _ (readBytes_lt b (p + 4) (readU32 b p))

/-- A file-sink context with a tiny flush threshold, to force the base64
chunking through several flushes. -/
def c8ctx : Ctx := { flatcc_json_printer_init with flushSize := 6 }

/-- A length-prefixed byte vector holding `fooba` (the spec's base64
example). -/
def c8buf : List Nat := [5, 0, 0, 0, 0x66, 0x6f, 0x6f, 0x62, 0x61]

theorem claim_C8_witness :
    c8ctx.sink = Sink.file ∧ 4 ≤ c8ctx.flushSize ∧
    c8ctx.buf.length < c8ctx.flushSize ∧
    (print_uint8_vector_base64_object c8buf c8ctx 0 true true).emitted
      = [0x22, 0x5a, 0x6d, 0x39, 0x76, 0x59, 0x6d, 0x45, 0x3d, 0x22] ∧
    base64_decode_list true
        (base64_encode_list true true (readBytes c8buf (0 + 4) (readU32 c8buf 0)))
      = some [0x66, 0x6f, 0x6f, 0x62, 0x61] := by
  refine ⟨rfl, by decide, by decide, ?_, ?_⟩
  · rw [(claim_C8 c8buf c8ctx 0 true rfl (by decide) (by decide)).1]
    decide
  · exact ((claim_C8 c8buf c8ctx 0 true rfl (by decide) (by decide)).2).trans (by decide)

/-! ## Buffer handoff (`get_buffer`, `finalize_dynamic_buffer`) -/

/-- `flatcc_json_printer_nl` (json_printer.c:327): a raw newline followed by a
partial flush. -/
def flatcc_json_printer_nl (ctx : Ctx) : Ctx :=
  flush_partial (print_char ctx 0x0a)

/-- `flatcc_json_printer_get_buffer` (json_printer.c:1177): report the cursor
offset (`ctx->p - ctx->buf`), store a NUL byte at the cursor, and return the
buffer.  The returned pair is (buffer contents including the terminator,
reported `buffer_size`). -/
def flatcc_json_printer_get_buffer (ctx : Ctx) : List Nat × Nat :=
  (ctx.buf ++ [0], ctx.buf.length)

/-- `flatcc_json_printer_finalize_dynamic_buffer` (json_printer.c:1186):
newline, full flush, then buffer handoff.  The trailing `memset(ctx, 0, ...)`
transfers ownership and does not change the returned buffer, so it is not
modelled. -/
def flatcc_json_printer_finalize_dynamic_buffer (ctx : Ctx) : List Nat × Nat :=
  flatcc_json_printer_get_buffer (flush_all (flatcc_json_printer_nl ctx))

theorem getD_append_singleton (l : List Nat) (x d : Nat) :
    (l ++ [x]).getD l.length d = x := by
  induction l with
  | nil => rfl
  | cons a t ih => simpa using ih

/-- C10: `flatcc_json_printer_get_buffer` — and hence
`flatcc_json_printer_finalize_dynamic_buffer` — writes a zero byte at the
current cursor position, reports `buffer_size` as the cursor offset from the
buffer start, and does not count the terminator in that reported size: the
byte at index `buffer_size` of the returned buffer is NUL, the bytes before
it are exactly the content, and the buffer holds one byte more than the
reported size. -/
theorem claim_C10 (ctx : Ctx) :
    flatcc_json_printer_get_buffer ctx = (ctx.buf ++ [0], ctx.buf.length) ∧
    (flatcc_json_printer_get_buffer ctx).1.getD
        (flatcc_json_printer_get_buffer ctx).2 1 = 0 ∧
    (flatcc_json_printer_get_buffer ctx).1.take
        (flatcc_json_printer_get_buffer ctx).2 = ctx.buf ∧
    (flatcc_json_printer_get_buffer ctx).1.length =
        (flatcc_json_printer_get_buffer ctx).2 + 1 ∧
    (flatcc_json_printer_finalize_dynamic_buffer ctx).1.getD
        (flatcc_json_printer_finalize_dynamic_buffer ctx).2 1 = 0 ∧
    (flatcc_json_printer_finalize_dynamic_buffer ctx).1.length =
        (flatcc_json_printer_finalize_dynamic_buffer ctx).2 + 1 := by
  refine ⟨rfl, ?_, ?_, ?_, ?_, ?_⟩
  · exact getD_append_singleton ctx.buf 0 1
  · simp [flatcc_json_printer_get_buffer]
  · simp [flatcc_json_printer_get_buffer]
  · exact getD_append_singleton (flush_all (flatcc_json_printer_nl ctx)).buf 0 1
  · simp [flatcc_json_printer_finalize_dynamic_buffer, flatcc_json_printer_get_buffer]

end Flatcc
